import Mathlib

/-!
Verification development for the Hytale-Installer server manager
(`dist/manage.py`).

Embedding conventions:
* Python strings are `List Char` (`PyStr`); a text file is a `List PyStr`
  of newline-terminated lines, each list element holding one line without
  its trailing newline character.
* Python runtime values handled by the configuration layer are `PyVal`.
* Python code that can raise (`ValueError` from `int()`/`float()`,
  `AttributeError` from calling a `str` method on a non-string,
  `TypeError` from `in`/indexing on unsupported operands) is embedded in
  `Except PyErr _`.
* Python floats are modelled as exact decimal fractions `PFloat`
  (numerator and a power-of-ten denominator, never normalised): the
  program only ever parses floats from decimal literals, compares them
  and formats them back with six decimal places, and on the values
  exercised here IEEE-754 doubles and exact fractions agree.
* Whitespace and case mapping follow the ASCII subset of the Python
  definitions (the configuration data this program manipulates is ASCII).
-/

namespace Manage

/-- Python string, modelled as a list of characters. -/
abbrev PyStr := List Char

/-- The exceptions the embedded fragments of `manage.py` can raise. -/
inductive PyErr where
  | valueError
  | attributeError
  | typeError
  | keyError
  deriving DecidableEq, Repr

/-- Decidable equality for `Except` results, so that concrete runs of the
embedded functions can be checked by evaluation. -/
instance exceptDecEq {ε α : Type} [DecidableEq ε] [DecidableEq α] :
    DecidableEq (Except ε α) := fun a b =>
  match a, b with
  | .ok x, .ok y =>
    if h : x = y then isTrue (by rw [h])
    else isFalse (fun hh => h (Except.ok.inj hh))
  | .error x, .error y =>
    if h : x = y then isTrue (by rw [h])
    else isFalse (fun hh => h (Except.error.inj hh))
  | .ok _, .error _ => isFalse (fun hh => Except.noConfusion hh)
  | .error _, .ok _ => isFalse (fun hh => Except.noConfusion hh)

/-- Python whitespace test (`str.strip` default set), ASCII subset. -/
def pyIsSpace (c : Char) : Bool :=
  c = ' ' || c = '\t' || c = '\n' || c = '\r' || c = '\x0b' || c = '\x0c'

/-- `str.lstrip()`. -/
def pyLStrip (s : PyStr) : PyStr := s.dropWhile pyIsSpace

/-- `str.rstrip()`. -/
def pyRStrip (s : PyStr) : PyStr := (s.reverse.dropWhile pyIsSpace).reverse

/-- `str.strip()`. -/
def pyStrip (s : PyStr) : PyStr := pyRStrip (pyLStrip s)

/-- ASCII lower-casing of one character (`str.lower`, ASCII subset). -/
def pyLowerChar (c : Char) : Char :=
  match c with
  | 'A' => 'a' | 'B' => 'b' | 'C' => 'c' | 'D' => 'd' | 'E' => 'e'
  | 'F' => 'f' | 'G' => 'g' | 'H' => 'h' | 'I' => 'i' | 'J' => 'j'
  | 'K' => 'k' | 'L' => 'l' | 'M' => 'm' | 'N' => 'n' | 'O' => 'o'
  | 'P' => 'p' | 'Q' => 'q' | 'R' => 'r' | 'S' => 's' | 'T' => 't'
  | 'U' => 'u' | 'V' => 'v' | 'W' => 'w' | 'X' => 'x' | 'Y' => 'y'
  | 'Z' => 'z'
  | c => c

/-- `str.lower()`, ASCII subset. -/
def pyLower (s : PyStr) : PyStr := s.map pyLowerChar

/-- Decimal digit test. -/
def isDigitChar (c : Char) : Bool :=
  c = '0' || c = '1' || c = '2' || c = '3' || c = '4' ||
  c = '5' || c = '6' || c = '7' || c = '8' || c = '9'

/-- Numeric value of a decimal digit character (0 for non-digits). -/
def charDigit (c : Char) : ℕ :=
  match c with
  | '0' => 0 | '1' => 1 | '2' => 2 | '3' => 3 | '4' => 4
  | '5' => 5 | '6' => 6 | '7' => 7 | '8' => 8 | '9' => 9
  | _ => 0

/-- Character for a decimal digit (only applied to digits below ten). -/
def digitChar (d : ℕ) : Char :=
  match d with
  | 0 => '0' | 1 => '1' | 2 => '2' | 3 => '3' | 4 => '4'
  | 5 => '5' | 6 => '6' | 7 => '7' | 8 => '8' | _ => '9'

/-- Little-endian decimal digits of `n`, with explicit fuel so that the
definition evaluates by kernel reduction. -/
def natDigitsRev (fuel n : ℕ) : List ℕ :=
  match fuel with
  | 0 => []
  | fuel + 1 => if n = 0 then [] else n % 10 :: natDigitsRev fuel (n / 10)

/-- Decimal rendering of a natural number. -/
def natChars (n : ℕ) : PyStr :=
  if n = 0 then ['0'] else ((natDigitsRev (n + 1) n).reverse).map digitChar

/-- Decimal rendering of a Python `int` (`str(value)`). -/
def intChars (n : ℤ) : PyStr :=
  if n < 0 then '-' :: natChars n.natAbs else natChars n.natAbs

/-- Numeric value of a big-endian block of digit characters. -/
def digitsVal (s : PyStr) : ℕ :=
  s.foldl (fun acc c => 10 * acc + charDigit c) 0

/-- Value of a little-endian digit list (proof helper for the decimal
round trip). -/
def digitsValLE : List ℕ → ℕ
  | [] => 0
  | d :: ds => d + 10 * digitsValLE ds

/-- A non-empty all-digit block, as accepted inside `int()`. -/
def parseNatDigits (s : PyStr) : Option ℕ :=
  if s ≠ [] && s.all isDigitChar then some (digitsVal s) else none

/-- Python `int(str)`: surrounding whitespace is stripped, an optional
sign is accepted, then decimal digits.  (Underscore separators and
non-decimal bases are outside the modelled fragment; the program never
produces them.)  `none` models `ValueError`. -/
def pyParseIntCore : PyStr → Option ℤ
  | [] => none
  | c :: rest =>
    if c = '-' then
      match parseNatDigits rest with
      | some k => some (-(k : ℤ))
      | none => none
    else if c = '+' then
      match parseNatDigits rest with
      | some k => some ((k : ℤ))
      | none => none
    else
      match parseNatDigits (c :: rest) with
      | some k => some ((k : ℤ))
      | none => none

def pyParseInt (s : PyStr) : Option ℤ := pyParseIntCore (pyStrip s)

/-- Python float value, as the exact decimal fraction `num / den`;
`den` is always a positive power of ten and the fraction is never
normalised. -/
structure PFloat where
  num : ℤ
  den : ℕ
  deriving DecidableEq, Repr

/-- Numeric equality of two `PFloat`s (cross-multiplication). -/
def PFloat.numEq (a b : PFloat) : Bool :=
  a.num * (b.den : ℤ) = b.num * (a.den : ℤ)

/-- Python `float(str)` on plain decimal literals (optional sign, digits,
optional dot, digits), returning the exact value.  Exponent forms and
`inf`/`nan` are outside the modelled fragment.  `none` models
`ValueError`. -/
def pyParseFloatDigits (t : PyStr) : Option PFloat :=
  match t.splitOn '.' with
  | [ip] =>
    if ip ≠ [] && ip.all isDigitChar then
      some ⟨(digitsVal ip : ℤ), 1⟩
    else none
  | [ip, fp] =>
    if (ip ++ fp) ≠ [] && ip.all isDigitChar && fp.all isDigitChar then
      some ⟨(digitsVal (ip ++ fp) : ℤ), 10 ^ fp.length⟩
    else none
  | _ => none

def pyParseFloatCore : PyStr → Option PFloat
  | [] => none
  | c :: rest =>
    if c = '-' then
      match pyParseFloatDigits rest with
      | some x => some ⟨-x.num, x.den⟩
      | none => none
    else if c = '+' then pyParseFloatDigits rest
    else pyParseFloatDigits (c :: rest)

def pyParseFloat (s : PyStr) : Option PFloat := pyParseFloatCore (pyStrip s)

/-- Fixed six-decimal formatting of a non-negative scaled value: `m` is
the value multiplied by 10^6 and rounded to an integer. -/
def formatScaled6 (m : ℕ) : PyStr :=
  let frac := natChars (m % 1000000)
  natChars (m / 1000000) ++ '.' :: (List.replicate (6 - frac.length) '0' ++ frac)

/-- Python `f-string` formatting with `:.6f`: the value rendered with
exactly six decimal places.  Rounding at the sixth place is modelled as
round-half-up on the exact fraction; CPython rounds the binary double
half-to-even, which only differs on exact ties, and no value exercised by
the program or the claims sits on a tie. -/
def pyFormat6 (x : PFloat) : PyStr :=
  if x.num < 0 then
    '-' :: formatScaled6 (((-x.num) * 1000000 * 2 + (x.den : ℤ)) / (2 * (x.den : ℤ))).toNat
  else
    formatScaled6 ((x.num * 1000000 * 2 + (x.den : ℤ)) / (2 * (x.den : ℤ))).toNat

/-- Python truncation `int(float)` (toward zero). -/
def PFloat.trunc (x : PFloat) : ℤ := x.num / (x.den : ℤ)

/-- The Python runtime values flowing through the configuration layer:
strings, ints, bools, floats and lists of strings. -/
inductive PyVal where
  | str (s : PyStr)
  | int (n : ℤ)
  | bool (b : Bool)
  | float (x : PFloat)
  | list (l : List PyStr)
  deriving DecidableEq, Repr

/-- Python `repr` of a float whose exact value is a short decimal
fraction: integer part, dot, fractional digits with trailing zeros
removed (at least one digit).  Faithful for the short decimal fractions
this program handles, where the shortest round-tripping decimal of the
double is the literal itself. -/
def pyFloatRepr (x : PFloat) : PyStr :=
  let k := (natChars x.den).length - 1
  let a := x.num.natAbs
  let fracDigits := natChars (a % x.den)
  let padded := List.replicate (k - fracDigits.length) '0' ++ fracDigits
  let trimmed := (padded.reverse.dropWhile (fun c => c = '0')).reverse
  (if x.num < 0 then ['-'] else []) ++ natChars (a / x.den) ++
    '.' :: (if trimmed = [] then ['0'] else trimmed)

/-- Python `repr` of a list of strings: `['a', 'b']` (single-quote form;
strings containing quotes are outside the exercised fragment). -/
def pyListRepr (l : List PyStr) : PyStr :=
  '[' :: ((l.map (fun s => '\'' :: (s ++ ['\'']))).intersperse (", ").data).flatten
    ++ [']']

/-- Python `str(value)`. -/
def pyStrVal : PyVal → PyStr
  | .str s => s
  | .int n => intChars n
  | .bool true => ("True").data
  | .bool false => ("False").data
  | .float x => pyFloatRepr x
  | .list l => pyListRepr l

/-- Python `int(value)` on the value kinds that occur here. -/
def pyInt : PyVal → Except PyErr ℤ
  | .str s =>
    match pyParseInt s with
    | some n => .ok n
    | none => .error .valueError
  | .int n => .ok n
  | .bool b => .ok (if b then 1 else 0)
  | .float x => .ok x.trunc
  | .list _ => .error .typeError

/-- Python `float(value)` on the value kinds that occur here. -/
def pyFloat : PyVal → Except PyErr PFloat
  | .str s =>
    match pyParseFloat s with
    | some x => .ok x
    | none => .error .valueError
  | .int n => .ok ⟨n, 1⟩
  | .bool b => .ok ⟨if b then 1 else 0, 1⟩
  | .float x => .ok x
  | .list _ => .error .typeError

/-- Numeric view of a value, for Python `==` across numeric types. -/
def pyNumVal : PyVal → Option PFloat
  | .int n => some ⟨n, 1⟩
  | .bool b => some ⟨if b then 1 else 0, 1⟩
  | .float x => some x
  | _ => none

/-- Python `==` on the value kinds that occur here: strings compare to
strings, lists elementwise, and numbers (ints, bools, floats) compare
numerically across types; any other mix is unequal. -/
def pyEq (a b : PyVal) : Bool :=
  match a, b with
  | .str s, .str t => s = t
  | .list l, .list m => l = m
  | _, _ =>
    match pyNumVal a, pyNumVal b with
    | some x, some y => x.numEq y
    | _, _ => false

/-- The truthy literals accepted by the boolean conversions:
`('1', 'true', 'yes', 'on')`. -/
def boolTrueLits : List PyStr :=
  [("1").data, ("true").data, ("yes").data, ("on").data]

/-- `BaseConfig.convert_to_system_type` (`dist/manage.py:1699`):
empty string is preserved; `int` parses the value with `int()`;
`bool` applies `value.lower()` (an `AttributeError` when the value is
not a string) and tests membership in the truthy literals; everything
else passes through unchanged. -/
def convert_to_system_type (value : PyVal) (val_type : String) : Except PyErr PyVal :=
  if value = .str [] then .ok (.str [])
  else if val_type = "int" then (pyInt value).map .int
  else if val_type = "bool" then
    match value with
    | .str s => .ok (.bool (boolTrueLits.contains (pyLower s)))
    | _ => .error .attributeError
  else .ok value

/-- `BaseConfig.convert_from_system_type` (`dist/manage.py:1717`):
`bool` renders `'True'`/`'False'` (empty string preserved, truthiness via
`value is True` or the lowered `str(value)` being a truthy literal);
`list` passes lists through and otherwise splits `str(value)` on commas,
stripping each item; `float` formats `float(value)` with six decimal
places; everything else renders with `str`. -/
def convert_from_system_type (value : PyVal) (val_type : String) : Except PyErr PyVal :=
  if val_type = "bool" then
    if value = .str [] then .ok (.str [])
    else if value = .bool true || boolTrueLits.contains (pyLower (pyStrVal value)) then
      .ok (.str ("True").data)
    else
      .ok (.str ("False").data)
  else if val_type = "list" then
    match value with
    | .list l => .ok (.list l)
    | _ => .ok (.list (((pyStrVal value).splitOn ',').map pyStrip))
  else if val_type = "float" then
    (pyFloat value).map (fun x => .str (pyFormat6 x))
  else .ok (.str (pyStrVal value))

/-- The composition `convert_to_system_type(convert_from_system_type(v, t), t)`
(system value → storage form → system value), with exception
propagation. -/
def roundTripFrom (v : PyVal) (t : String) : Except PyErr PyVal :=
  match convert_from_system_type v t with
  | .ok w => convert_to_system_type w t
  | .error e => .error e

/-- The composition `convert_from_system_type(convert_to_system_type(x, t), t)`
(storage form → system value → storage form), with exception
propagation. -/
def roundTripTo (x : PyVal) (t : String) : Except PyErr PyVal :=
  match convert_to_system_type x t with
  | .ok w => convert_from_system_type w t
  | .error e => .error e

/-! ## Option setting across bound configs (`BaseApp.set_option` /
`BaseService.set_option`, `dist/manage.py:509` and `:1004`; the two
bodies are identical).  A bound config file is abstracted as a backend
with `option in config.options`, `config.get_value` and
`config.set_value`; `config.save` and the `option_value_updated` hook are
recorded as events. -/

/-- One bound config: the option-membership test, the getter and the
(functional) setter over a backing state `σ`. -/
structure Backend (σ : Type) where
  hasOpt : String → Bool
  getv : σ → String → PyVal
  setv : σ → String → PyVal → σ

/-- Observable actions of `set_option`. -/
inductive SetEvent where
  | setValue (option : String) (value : PyVal)
  | save
  | hook (option : String) (previous newValue : PyVal)
  | diagInvalid (option : String)
  deriving DecidableEq

/-- `set_option(option, value)`: walk the bound configs in order; on the
first config that registers the option, compare the current value and
either return silently (no set, no save, no hook) or set, save and fire
the hook once; an unknown option only prints a diagnostic. -/
def setOption {σ : Type} (cfgs : List (Backend σ × σ)) (opt : String) (value : PyVal) :
    List (Backend σ × σ) × List SetEvent :=
  match cfgs with
  | [] => ([], [.diagInvalid opt])
  | (b, s) :: rest =>
    if b.hasOpt opt then
      let previous := b.getv s opt
      if pyEq previous value then ((b, s) :: rest, [])
      else ((b, b.setv s opt value) :: rest,
        [.setValue opt value, .save, .hook opt previous value])
    else
      let r := setOption rest opt value
      ((b, s) :: r.1, r.2)

/-- `get_option_value(option)`: first registered config wins; unknown
options yield `''`. -/
def get_option_value {σ : Type} (cfgs : List (Backend σ × σ)) (opt : String) : PyVal :=
  match cfgs with
  | [] => .str []
  | (b, s) :: rest =>
    if b.hasOpt opt then b.getv s opt else get_option_value rest opt

/-! ## Restore (`BaseApp.restore` / `prepare_restore` / `complete_restore`,
`dist/manage.py:794-898`) and the activity guard
(`BaseApp.is_active`, `:577`). -/

/-- The three systemd-derived activity flags of one service instance. -/
structure SvcState where
  running : Bool
  starting : Bool
  stopping : Bool
  deriving DecidableEq

/-- `BaseApp.is_active`: some instance is running, starting or
stopping. -/
def is_active (svcs : List SvcState) : Bool :=
  svcs.any (fun s => s.running || s.starting || s.stopping)

/-- Filesystem actions a restore can perform. -/
inductive FsEffect where
  | makedirsRestoreTemp
  | unpackArchive
  | copyConfig (dst : String)
  | chownPath (dst : String)
  | copySave (item : String)
  | removeTempTree
  deriving DecidableEq

/-- The parts of the world `restore` reads: whether the archive path
exists, the instances' activity states, the app- and service-level config
destinations (with whether a matching member was found in the unpacked
tree), the optional save destination with the unpacked save items, and
whether the process runs as root (ownership fixing). -/
structure RestoreEnv where
  archiveExists : Bool
  services : List SvcState
  appConfigs : List (String × Bool)
  svcConfigs : List (Bool × List (String × Bool))
  saveDest : Option String
  saveSrcExists : Bool
  saveItems : List String
  euidIsRoot : Bool

/-- Restore effects for one list of config destinations: copy each whose
archive member exists, fixing ownership when root. -/
def restoreConfigEffects (root : Bool) (cfgs : List (String × Bool)) : List FsEffect :=
  cfgs.flatMap (fun (dst, member) =>
    if dst ≠ "" && member then
      .copyConfig dst :: (if root then [.chownPath dst] else [])
    else [])

/-- `BaseApp.prepare_restore`: refuse (no effect at all) when the archive
path is missing or any instance is active; otherwise extract and copy
configs and saves back.  `none` models the `False` return. -/
def prepare_restore (env : RestoreEnv) : Option (List FsEffect) :=
  if !env.archiveExists then none
  else if is_active env.services then none
  else some (
    [.makedirsRestoreTemp, .unpackArchive]
    ++ restoreConfigEffects env.euidIsRoot env.appConfigs
    ++ env.svcConfigs.flatMap (fun (dirExists, cfgs) =>
        if dirExists then restoreConfigEffects env.euidIsRoot cfgs else [])
    ++ (match env.saveDest with
        | none => []
        | some _ =>
          if env.saveSrcExists then
            env.saveItems.flatMap (fun item =>
              .copySave item :: (if env.euidIsRoot then [.chownPath item] else []))
          else []))

/-- `BaseApp.restore`: `prepare_restore` then cleanup of the temporary
tree; `False` (with no effects) when preparation refused. -/
def restore (env : RestoreEnv) : Bool × List FsEffect :=
  match prepare_restore env with
  | none => (false, [])
  | some effs => (true, effs ++ [.removeTempTree])

/-! ## Pre-stop hook (`BaseService.pre_stop`, `dist/manage.py:1515`). -/

/-- Substring containment, Python `pat in s`. -/
def isSubstring (pat s : PyStr) : Bool :=
  s.tails.any (fun t => pat.isPrefixOf t)

/-- `str.replace` helper with explicit fuel (the pattern is non-empty in
every use inside the program). -/
def replaceSubAux (fuel : ℕ) (pat rep : PyStr) (s : PyStr) : PyStr :=
  match fuel, s with
  | 0, s => s
  | _ + 1, [] => []
  | fuel + 1, c :: t =>
    if pat ≠ [] && pat.isPrefixOf (c :: t) then
      rep ++ replaceSubAux fuel pat rep ((c :: t).drop pat.length)
    else c :: replaceSubAux fuel pat rep t

/-- `s.replace(pat, rep)` for a non-empty pattern. -/
def replaceSub (s pat rep : PyStr) : PyStr := replaceSubAux s.length pat rep s

/-- Observable actions of `pre_stop`. -/
inductive StopEvent where
  | discord (msg : PyStr)
  | sendWarning (msg : PyStr)
  | sleepSecs (secs : ℕ)
  | saveWorld
  deriving DecidableEq

/-- The warning sequence of `pre_stop`: the seven configured messages
paired with the waits hard-coded in the source (60, 60, 60, 60, 30, 30,
0 seconds). -/
def stopTimers (w5 w4 w3 w2 w1 w30 wNow : PyStr) : List (PyStr × ℕ) :=
  [(w5, 60), (w4, 60), (w3, 60), (w2, 60), (w1, 30), (w30, 30), (wNow, 0)]

/-- The warning walk of `pre_stop`: before each warning the player count
is re-read (`playersAt i` is the i-th reading); a reading of `None` or a
non-positive count stops the sequence. -/
def preStopWarnLoop (playersAt : ℕ → Option ℤ) : ℕ → List (PyStr × ℕ) → List StopEvent
  | _, [] => []
  | i, (msg, secs) :: rest =>
    match playersAt i with
    | some p =>
      if p > 0 then
        (.sendWarning msg :: (if secs ≠ 0 then [.sleepSecs secs] else []))
          ++ preStopWarnLoop playersAt (i + 1) rest
      else []
    | none => []

/-- `BaseService.pre_stop`: Discord notice when configured (with
`{instance}` substitution), the warning walk when the API is available,
a forced world save when the API is available — and an unconditional
`True` result. -/
def pre_stop (stopMsg instName : PyStr) (api : Bool)
    (w5 w4 w3 w2 w1 w30 wNow : PyStr) (playersAt : ℕ → Option ℤ) :
    List StopEvent × Bool :=
  let discordEvs :=
    if stopMsg ≠ [] then
      [.discord (if isSubstring ("\x7binstance\x7d").data stopMsg then
          replaceSub stopMsg ("\x7binstance\x7d").data instName
        else stopMsg)]
    else []
  let warnEvs :=
    if api then preStopWarnLoop playersAt 0 (stopTimers w5 w4 w3 w2 w1 w30 wNow)
    else []
  let saveEvs := if api then [.saveWorld, .sleepSecs 5] else []
  (discordEvs ++ warnEvs ++ saveEvs, true)

/-- A one-option demonstration backend over a single stored value, used
to witness the `set_option` behaviour on concrete data. -/
def demoBackend : Backend PyVal where
  hasOpt := fun o => o == "Server Port"
  getv := fun s _ => s
  setv := fun _ _ v => v

/-! ## Service start (`BaseService.start`, `dist/manage.py:1434-1513`).
The external world is a trace: at poll tick `i` the process manager
reports the unit's main PID and `ExecMainStatus`, the optional API
reports a player count, and `elapsed` is the whole-second wall time since
the start request (10 s initial grace plus one second per tick). -/

/-- One poll-tick observation. -/
structure StartObs where
  pid : ℕ
  status : ℤ
  players : Option ℤ
  elapsed : ℕ
  deriving DecidableEq

/-- Observable actions and diagnostics of `start`. -/
inductive StartEvent where
  | diagRunning
  | diagStarting
  | diagNoSudo
  | startRequest
  | printLogs
  | diagFailStatus (status : ℤ)
  | diagFailPid
  | progress (tick : ℕ)
  | success
  deriving DecidableEq

/-- The readiness test of one tick: with an API, any successful player
count; without one, sixty elapsed seconds. -/
def start_ready (api : Bool) (o : StartObs) : Bool :=
  if api then o.players.isSome else o.elapsed ≥ 60

/-- The bounded polling loop of `start` (up to 240 ticks): each tick
aborts on a non-zero exit status, then on a vanished PID, else prints a
progress line and stops successfully once ready. -/
def startLoop (api : Bool) (tr : ℕ → StartObs) : ℕ → ℕ → List StartEvent
  | _, 0 => []
  | i, fuel + 1 =>
    let o := tr i
    if o.status ≠ 0 then [.printLogs, .diagFailStatus o.status]
    else if o.pid = 0 then [.printLogs, .diagFailPid]
    else
      .progress i ::
        (if start_ready api o then [.success] else startLoop api tr (i + 1) fuel)

/-- `BaseService.start`: no-op diagnostics when already running or
starting; a missing-sudo diagnostic that does **not** return (the code
falls through); then the systemd start request and the polling loop. -/
def start (running starting euidIsRoot api : Bool) (tr : ℕ → StartObs) :
    List StartEvent :=
  if running then [.diagRunning]
  else if starting then [.diagStarting]
  else
    (if euidIsRoot then [] else [.diagNoSudo]) ++
      .startRequest :: startLoop api tr 1 240

/-! ## Delayed actions (`menu_delayed_action_game`, `dist/manage.py:2270-2347`,
and `menu_delayed_action`, `:2350-2400`).  Ticks are minutes: the loops
sleep sixty seconds per iteration and read `minutes_left = 55 - t` at
tick `t` (the wall-clock division by sixty at whole-minute granularity).
Per service and tick the external world reports the systemd running flag
and the optional player count. -/

/-- One per-service observation of the fleet loop. -/
structure DelayTick where
  running : Bool
  players : Option ℤ
  deriving DecidableEq

/-- Observable actions of the delayed-action loops. -/
inductive DelayEvent where
  | stopSvc (svc : String) (tick : ℕ)
  | msgSvc (svc : String) (tick : ℕ)
  | consoleCountdown (tick : ℕ)
  | updateGame
  | restartSvc (svc : String)
  | stopSingle
  | restartSingle
  | msgSingle (tick : ℕ)
  deriving DecidableEq

/-- One tick of the fleet loop over the service list: for each running
service, record it as `services_running`, stop it when the player count
is zero or unknown, otherwise stop unconditionally at five minutes left
and send the warning on every fifth minute above five.  Returns the
events, the `still_running` flag and the updated `services_running`. -/
def fleetSvcStep (tr : String → ℕ → DelayTick) (t : ℕ) (ml : ℤ) :
    List String → List String → List DelayEvent × Bool × List String
  | [], seen => ([], false, seen)
  | svc :: rest, seen =>
    if (tr svc t).running then
      let seen1 := if svc ∈ seen then seen else seen ++ [svc]
      let evs :=
        match (tr svc t).players with
        | none => [.stopSvc svc t]
        | some p =>
          if p = 0 then [.stopSvc svc t]
          else
            (if ml ≤ 5 then [.stopSvc svc t] else []) ++
            (if ml % 5 = 0 && ml > 5 then [.msgSvc svc t] else [])
      let r := fleetSvcStep tr t ml rest seen1
      (evs ++ r.1, true, r.2.2)
    else
      fleetSvcStep tr t ml rest seen

/-- The fleet loop: bounded at 56 whole-minute ticks (`minutes_left`
reaches zero at tick 55), exiting as soon as no targeted service is
still running or the budget is exhausted. -/
def fleetLoop (tr : String → ℕ → DelayTick) (svcs : List String) :
    ℕ → ℕ → List String → List DelayEvent × List String
  | _, 0, seen => ([], seen)
  | t, fuel + 1, seen =>
    let ml : ℤ := 55 - (t : ℤ)
    let r := fleetSvcStep tr t ml svcs seen
    let evs1 := r.1 ++ (if ml % 5 = 0 && ml > 5 then [.consoleCountdown t] else [])
    if !r.2.1 || ml ≤ 0 then (evs1, r.2.2)
    else
      let rest := fleetLoop tr svcs (t + 1) fuel r.2.2
      (evs1 ++ rest.1, rest.2)

/-- `menu_delayed_action_game(game, action)`: validity and privilege
guards, the fleet loop, then the update and the restart of the services
that were seen running. -/
def menu_delayed_action_game (action : String) (euidIsRoot : Bool)
    (tr : String → ℕ → DelayTick) (svcs : List String) : List DelayEvent :=
  if action ≠ "stop" && action ≠ "restart" && action ≠ "update" then []
  else if !euidIsRoot then []
  else
    let r := fleetLoop tr svcs 0 56 []
    r.1 ++ (if action = "update" then [.updateGame] else [])
      ++ (if action = "restart" || action = "update" then
            (svcs.filter (fun s => s ∈ r.2)).map .restartSvc
          else [])

/-- The single-instance delayed loop: breaks as soon as the tracked
player count is zero or unknown (or five minutes remain), sending the
warning on every fifth minute; the message variable is replaced in
place. -/
def singleLoop (tr : ℕ → Option ℤ) : ℕ → ℕ → PyStr → List DelayEvent
  | _, 0, _ => []
  | t, fuel + 1, msg =>
    let ml : ℤ := 55 - (t : ℤ)
    match tr t with
    | none => []
    | some p =>
      if p = 0 then []
      else
        let msg1 := if isSubstring ("\x7btime\x7d").data msg then
            replaceSub msg ("\x7btime\x7d").data (intChars ml)
          else msg
        if ml ≤ 5 then []
        else
          (if ml % 5 = 0 then [.msgSingle t] else []) ++
          (if ml % 5 = 0 && ml > 5 then [.consoleCountdown t] else []) ++
          singleLoop tr (t + 1) fuel msg1

/-- `menu_delayed_action(service, action)`: guards, the single-instance
loop, then the plain stop or restart. -/
def menu_delayed_action (action : String) (euidIsRoot : Bool)
    (tr : ℕ → Option ℤ) (msg : PyStr) : List DelayEvent :=
  if action ≠ "stop" && action ≠ "restart" then []
  else if !euidIsRoot then []
  else
    singleLoop tr 0 56 msg ++
      (if action = "stop" then [.stopSingle] else [.restartSingle])

/-! ## Backup completion and retention (`BaseApp.complete_backup`,
`dist/manage.py:727-792`).  The backup directory is a listing of files
with names and modification times; `shutil.make_archive` adds the new
archive, retention filters the names matching
`<sanitized>-backup-*.tar.gz`, sorts them by mtime ascending (Python
`list.sort` is stable; insertion placing the new element before equal
keys reproduces that) and deletes from the front until `max_backups`
remain. -/

/-- One file of the backup directory listing. -/
structure BakFile where
  name : PyStr
  mtime : ℤ
  deriving DecidableEq

/-- The name sanitiser of `complete_backup`: `/ \\` become `_`,
`: * ? " '` are dropped, spaces become `_`. -/
def sanitizeChar (c : Char) : Option Char :=
  match c with
  | '/' => some '_'
  | '\\' => some '_'
  | ':' => none
  | '*' => none
  | '?' => none
  | '"' => none
  | '\'' => none
  | ' ' => some '_'
  | c => some c

/-- Sequential character replacements applied to the game name. -/
def sanitizeName (s : PyStr) : PyStr := s.filterMap sanitizeChar

/-- `'%s-backup-'` prefix used both to build and to match archive
names. -/
def backupPrefix (base : PyStr) : PyStr := base ++ ("-backup-").data

/-- `'%s-backup-%s.tar.gz'`. -/
def backupName (base timestamp : PyStr) : PyStr :=
  backupPrefix base ++ (timestamp ++ (".tar.gz").data)

/-- The retention filter: `f.startswith('%s-backup-' % base_name) and
f.endswith('.tar.gz')`. -/
def isBackupName (base name : PyStr) : Bool :=
  (backupPrefix base).isPrefixOf name && ((".tar.gz").data).isSuffixOf name

/-- Stable ascending insertion by modification time (equal keys keep
their original relative order, as Python's sort does). -/
def insertByMtime (x : BakFile) : List BakFile → List BakFile
  | [] => [x]
  | y :: ys => if x.mtime ≤ y.mtime then x :: y :: ys else y :: insertByMtime x ys

/-- `backups.sort(key=lambda x: x[1])`. -/
def sortByMtime : List BakFile → List BakFile
  | [] => []
  | x :: xs => insertByMtime x (sortByMtime xs)

/-- `BaseApp.complete_backup` restricted to its effect on the backup
directory listing: create the archive (the new, freshest file), then
when `max_backups > 0` delete the oldest matching archives beyond the
limit.  Returns the directory afterwards and the deleted files. -/
def complete_backup (existing : List BakFile) (rawName timestamp : PyStr)
    (newMtime : ℤ) (maxBackups : ℕ) : List BakFile × List BakFile :=
  let base := sanitizeName rawName
  let dir1 := existing ++ [⟨backupName base timestamp, newMtime⟩]
  if maxBackups = 0 then (dir1, [])
  else
    let backups := sortByMtime (dir1.filter (fun f => isBackupName base f.name))
    let removed := backups.take (backups.length - maxBackups)
    (dir1.filter (fun f => !((removed.map BakFile.name).contains f.name)), removed)

/-! ## Hierarchical (JSON) backend (`JSONConfig`, `dist/manage.py:2004-2092`).
The in-memory document is a JSON tree: leaves are the Python values the
conversions produce, inner nodes are insertion-ordered string-keyed
dictionaries (Python dicts preserve insertion order). -/

/-- A JSON tree value. -/
inductive JVal where
  | prim (v : PyVal)
  | obj (entries : List (PyStr × JVal))

/-- Decidable equality for JSON trees (mutual with entry lists). -/
def JVal.beq : JVal → JVal → Bool
  | .prim a, .prim b => a = b
  | .obj ea, .obj eb => beqEntries ea eb
  | _, _ => false
where beqEntries : List (PyStr × JVal) → List (PyStr × JVal) → Bool
  | [], [] => true
  | (k1, v1) :: r1, (k2, v2) :: r2 => k1 = k2 && JVal.beq v1 v2 && beqEntries r1 r2
  | _, _ => false

/-- A registered option: `(section, key, default, val_type)` from the
`self.options` tuples (help text and allowed values are irrelevant
here). -/
structure OptEntry where
  sect : Option PyStr
  key : PyStr
  default : PyStr
  valType : String

/-- `name in self.options` / `self.options[name]` over the registration
dict (string-keyed, first binding wins). -/
def lookupOpt (opts : List (String × OptEntry)) (name : String) : Option OptEntry :=
  match opts with
  | [] => none
  | (n, o) :: rest => if n = name then some o else lookupOpt rest name

/-- Dict lookup preserving Python semantics (first, and only, binding). -/
def assocGet (e : List (PyStr × JVal)) (k : PyStr) : Option JVal :=
  match e with
  | [] => none
  | (k1, v1) :: rest => if k1 = k then some v1 else assocGet rest k

/-- Dict store: update in place when the key exists, else append (Python
dict insertion order). -/
def assocSet (e : List (PyStr × JVal)) (k : PyStr) (v : JVal) : List (PyStr × JVal) :=
  match e with
  | [] => [(k, v)]
  | (k1, v1) :: rest =>
    if k1 = k then (k1, v) :: rest else (k1, v1) :: assocSet rest k v

/-- Python `part in lookup`: key membership on dicts, substring test on
strings, element membership on lists, `TypeError` on other leaves. -/
def jContains (j : JVal) (part : PyStr) : Except PyErr Bool :=
  match j with
  | .obj e => .ok (assocGet e part).isSome
  | .prim (.str s) => .ok (isSubstring part s)
  | .prim (.list l) => .ok (l.contains part)
  | .prim _ => .error .typeError

/-- Python `lookup[part]` with a string subscript: dict lookup, a
`TypeError` on any leaf. -/
def jGetItem (j : JVal) (part : PyStr) : Except PyErr JVal :=
  match j with
  | .obj e =>
    match assocGet e part with
    | some v => .ok v
    | none => .error .keyError
  | .prim _ => .error .typeError

/-- `'a/b/c'.split('/')` after stripping one leading `'/'`
(`JSONConfig` does `key = key[1:]` first). -/
def splitSlash (key : PyStr) : List PyStr :=
  (match key with
   | '/' :: rest => rest
   | key => key).splitOn '/'

/-- The lookup walk of `JSONConfig.get_value`: descend while each part
is contained, stopping at the raw default string on the first missing
part. -/
def jWalk (j : JVal) (parts : List PyStr) (default : PyStr) : Except PyErr JVal :=
  match parts with
  | [] => .ok j
  | p :: rest =>
    match jContains j p with
    | .error e => .error e
    | .ok true =>
      match jGetItem j p with
      | .error e => .error e
      | .ok j1 => jWalk j1 rest default
    | .ok false => .ok (.prim (.str default))

/-- Whether the walk stops at a missing component (no error on the way):
the situation in which `get_value` falls back to the default. -/
def pathMisses (j : JVal) (parts : List PyStr) : Bool :=
  match parts with
  | [] => false
  | p :: rest =>
    match jContains j p with
    | .error _ => false
    | .ok false => true
    | .ok true =>
      match jGetItem j p with
      | .error _ => false
      | .ok j1 => pathMisses j1 rest

/-- `convert_to_system_type` applied to whatever the walk returned
(`lookup` may still be a dict: ints and bools then raise, anything else
passes the dict through). -/
def convert_to_system_J (j : JVal) (t : String) : Except PyErr JVal :=
  match j with
  | .prim v =>
    match convert_to_system_type v t with
    | .ok w => .ok (.prim w)
    | .error e => .error e
  | .obj e =>
    if t = "int" then .error .typeError
    else if t = "bool" then .error .attributeError
    else .ok (.obj e)

/-- `JSONConfig.get_value` (`dist/manage.py:2011`): unknown options print
a diagnostic and yield `''`; otherwise walk the slash path through
`self.data` and convert the result (or the default) to the system
type. -/
def JSONConfig_get_value (opts : List (String × OptEntry))
    (data : List (PyStr × JVal)) (name : String) : Except PyErr JVal :=
  match lookupOpt opts name with
  | none => .ok (.prim (.str []))
  | some o =>
    match jWalk (.obj data) (splitSlash o.key) o.default with
    | .error e => .error e
    | .ok j => convert_to_system_J j o.valType

/-- The mutation walk of `JSONConfig.set_value`: on the last part assign
into the current dict; otherwise create `\x7b\x7d` for a missing part and
descend.  Descending into (or assigning on) a non-dict raises
`TypeError`, as the corresponding subscript does in Python. -/
def jSetVal (j : JVal) (parts : List PyStr) (v : JVal) : Except PyErr JVal :=
  match parts with
  | [] => .ok j
  | p :: rest =>
    match j with
    | .prim _ => .error .typeError
    | .obj e =>
      match rest with
      | [] => .ok (.obj (assocSet e p v))
      | _ :: _ =>
        match assocGet e p with
        | none =>
          match jSetVal (.obj []) rest v with
          | .ok j1 => .ok (.obj (assocSet e p j1))
          | .error er => .error er
        | some j1 =>
          match jSetVal j1 rest v with
          | .ok j2 => .ok (.obj (assocSet e p j2))
          | .error er => .error er

/-- `JSONConfig.set_value` (`dist/manage.py:2038`): unknown options print
a diagnostic and leave the document alone; otherwise the value is first
converted to the system type (JSON stores native types) and stored at
the slash path, creating intermediate dicts. -/
def JSONConfig_set_value (opts : List (String × OptEntry))
    (data : List (PyStr × JVal)) (name : String) (value : PyVal) :
    Except PyErr (List (PyStr × JVal)) :=
  match lookupOpt opts name with
  | none => .ok data
  | some o =>
    match convert_to_system_type value o.valType with
    | .error e => .error e
    | .ok w =>
      match jSetVal (.obj data) (splitSlash o.key) (.prim w) with
      | .ok (.obj e) => .ok e
      | .ok (.prim _) => .ok data
      | .error e => .error e

/-! ## Sectioned (INI) backend in spoofed-section mode (`INIConfig`,
`dist/manage.py:1849-2000`).  `load` with `spoof_group` set feeds
`'[group]\n' + file` to `configparser.read_string`; with a header-less
file every entry lands in the single spoofed section, so the parser
state is one insertion-ordered entry list.  `save` writes the parser
output (`[group]`, `key = value` lines, one trailing blank line) and
strips the first line when it is a bracketed header, plus one following
blank line.  The line parser below follows `configparser`'s default
dialect on the header-less fragment: full-line `#`/`;` comments, blank
lines, `key = value` with `'='` or `':'` as delimiter, lower-cased
option names (`optionxform`), duplicate options rejected (`strict`);
files with their own section headers or indented continuation lines are
outside this mode and map to distinct errors. -/

/-- The two option/value delimiters of the default `configparser`. -/
def delimChar (c : Char) : Bool := c = '=' || c = ':'

/-- Split a line at the first delimiter: `(before, after)`. -/
def splitFirstDelim : PyStr → Option (PyStr × PyStr)
  | [] => none
  | c :: t =>
    if delimChar c then some ([], t)
    else
      match splitFirstDelim t with
      | none => none
      | some (a, b) => some (c :: a, b)

/-- Errors of the spoofed-mode loader (duplicate option = strict-mode
`DuplicateOptionError`; a parsing error for an unmatchable line or an
empty option name; separate markers for section and continuation lines,
which fall outside the header-less fragment). -/
inductive IniErr where
  | parsingError
  | duplicateOption
  | sectionLine
  | continuationLine
  deriving DecidableEq, Repr

/-- Classification of one line. -/
inductive IniLine where
  | blank
  | comment
  | entry (k v : PyStr)
  | header
  | continuation
  | bad
  deriving DecidableEq, Repr

/-- Classify one raw line the way `configparser._read` treats it. -/
def classifyIniLine (line : PyStr) : IniLine :=
  match pyStrip line with
  | [] => .blank
  | c :: rest =>
    if c = '#' || c = ';' then .comment
    else if (match line with | [] => false | c0 :: _ => pyIsSpace c0) then .continuation
    else if c = '[' then .header
    else
      match splitFirstDelim (c :: rest) with
      | none => .bad
      | some (kraw, after) =>
        let k := pyLower (pyRStrip kraw)
        if k = [] then .bad else .entry k (pyStrip after)

/-- Fold the lines into the spoofed section's entry dict. -/
def iniParseLines : List PyStr → List (PyStr × PyStr) →
    Except IniErr (List (PyStr × PyStr))
  | [], acc => .ok acc
  | line :: rest, acc =>
    match classifyIniLine line with
    | .blank => iniParseLines rest acc
    | .comment => iniParseLines rest acc
    | .header => .error .sectionLine
    | .continuation => .error .continuationLine
    | .bad => .error .parsingError
    | .entry k v =>
      if (acc.map Prod.fst).contains k then .error .duplicateOption
      else iniParseLines rest (acc ++ [(k, v)])

/-- `INIConfig.load` in spoofed mode on a header-less file: the entries
of the single spoofed section. -/
def iniLoadSpoofed (content : List PyStr) : Except IniErr (List (PyStr × PyStr)) :=
  iniParseLines content []

/-- One written entry line: `configparser.write` emits
`key = value`. -/
def renderEntry (e : PyStr × PyStr) : PyStr := e.1 ++ (" = ").data ++ e.2

/-- `self.parser.write(...)` output for the single spoofed section:
header, entry lines, one trailing blank line. -/
def iniWriteLines (group : PyStr) (es : List (PyStr × PyStr)) : List PyStr :=
  ('[' :: (group ++ [']'])) :: (es.map renderEntry ++ [[]])

/-- `lines[0].strip().startswith('[') and lines[0].strip().endswith(']')`. -/
def isHeaderish (l : PyStr) : Bool :=
  (("[").data).isPrefixOf (pyStrip l) && (("]").data).isSuffixOf (pyStrip l)

/-- `INIConfig.save` in spoofed mode: write the parser output, then drop
the first line when it is a bracketed header and one following blank
line if present. -/
def iniSaveSpoofed (group : PyStr) (es : List (PyStr × PyStr)) : List PyStr :=
  match iniWriteLines group es with
  | [] => []
  | l0 :: rest =>
    if isHeaderish l0 then
      match rest with
      | [] => []
      | l1 :: rest2 => if pyStrip l1 = [] then rest2 else l1 :: rest2
    else l0 :: rest

/-- The shape invariants an entry key has after parsing: non-empty, free
of delimiters, a head that is not whitespace, a comment mark or a
bracket, right-stripped and lower-cased. -/
def GoodKey (k : PyStr) : Prop :=
  k ≠ [] ∧ (∀ c ∈ k, delimChar c = false) ∧
  (∀ c, k.head? = some c → pyIsSpace c = false ∧ c ≠ '#' ∧ c ≠ ';' ∧ c ≠ '[') ∧
  pyRStrip k = k ∧ pyLower k = k

/-- The shape invariants of a parsed entry: a good key and a fully
stripped value. -/
def GoodEntry (e : PyStr × PyStr) : Prop :=
  GoodKey e.1 ∧ pyLStrip e.2 = e.2 ∧ pyRStrip e.2 = e.2

/-! ## Decimal rendering round-trip lemmas -/

theorem charDigit_digitChar {d : ℕ} (h : d < 10) : charDigit (digitChar d) = d := by
  interval_cases d <;> rfl

theorem isDigitChar_digitChar {d : ℕ} (h : d < 10) : isDigitChar (digitChar d) = true := by
  interval_cases d <;> rfl

theorem isDigitChar_elim {c : Char} (h : isDigitChar c = true) :
    c = '0' ∨ c = '1' ∨ c = '2' ∨ c = '3' ∨ c = '4' ∨
    c = '5' ∨ c = '6' ∨ c = '7' ∨ c = '8' ∨ c = '9' := by
  simp only [isDigitChar, Bool.or_eq_true, decide_eq_true_eq] at h
  tauto

theorem not_space_of_digit {c : Char} (h : isDigitChar c = true) :
    pyIsSpace c = false := by
  rcases isDigitChar_elim h with rfl|rfl|rfl|rfl|rfl|rfl|rfl|rfl|rfl|rfl <;> rfl

theorem natDigitsRev_lt {fuel n : ℕ} : ∀ d ∈ natDigitsRev fuel n, d < 10 := by
  induction fuel generalizing n with
  | zero => intro d hd; simp [natDigitsRev] at hd
  | succ f ih =>
    intro d hd
    by_cases h : n = 0
    · simp [natDigitsRev, h] at hd
    · simp only [natDigitsRev, if_neg h, List.mem_cons] at hd
      rcases hd with rfl | hd
      · omega
      · exact ih d hd

theorem natDigitsRev_val {fuel n : ℕ} (h : n ≤ fuel) :
    digitsValLE (natDigitsRev fuel n) = n := by
  induction fuel generalizing n with
  | zero => interval_cases n; rfl
  | succ f ih =>
    by_cases h0 : n = 0
    · simp [natDigitsRev, h0, digitsValLE]
    · have hdiv : n / 10 ≤ f := by omega
      simp only [natDigitsRev, if_neg h0, digitsValLE, ih hdiv]
      omega

theorem foldr_digits_val (ds : List ℕ) (acc : ℕ) :
    ds.foldr (fun d a => 10 * a + d) acc = acc * 10 ^ ds.length + digitsValLE ds := by
  induction ds with
  | nil => simp [digitsValLE]
  | cons d ds ih =>
    simp only [List.foldr_cons, ih, digitsValLE, List.length_cons]
    ring

theorem foldr_charDigit_digitChar (ds : List ℕ) (hds : ∀ d ∈ ds, d < 10) (acc : ℕ) :
    ds.foldr (fun d a => 10 * a + charDigit (digitChar d)) acc =
      ds.foldr (fun d a => 10 * a + d) acc := by
  induction ds with
  | nil => rfl
  | cons d t ih =>
    simp only [List.foldr_cons]
    rw [ih (fun x hx => hds x (List.mem_cons_of_mem _ hx)),
      charDigit_digitChar (hds d (List.mem_cons_self d t))]

theorem digitsVal_of_digits (ds : List ℕ) (hds : ∀ d ∈ ds, d < 10) :
    digitsVal ((ds.reverse).map digitChar) = digitsValLE ds := by
  have h1 : (ds.reverse).map digitChar = (ds.map digitChar).reverse := by
    simp [List.map_reverse]
  rw [digitsVal, h1, List.foldl_reverse, List.foldr_map]
  rw [foldr_charDigit_digitChar ds hds, foldr_digits_val]
  simp

theorem natChars_all_digit (n : ℕ) : ∀ c ∈ natChars n, isDigitChar c = true := by
  intro c hc
  by_cases h : n = 0
  · simp [natChars, h] at hc
    subst hc; rfl
  · simp only [natChars, if_neg h, List.mem_map, List.mem_reverse] at hc
    obtain ⟨d, hd, rfl⟩ := hc
    exact isDigitChar_digitChar (natDigitsRev_lt d hd)

theorem natChars_ne_nil (n : ℕ) : natChars n ≠ [] := by
  by_cases h : n = 0
  · simp [natChars, h]
  · have : natDigitsRev (n + 1) n = n % 10 :: natDigitsRev n (n / 10) := by
      simp [natDigitsRev, h]
    simp [natChars, if_neg h, this]

theorem parseNatDigits_natChars (n : ℕ) : parseNatDigits (natChars n) = some n := by
  by_cases h : n = 0
  · subst h; rfl
  · have hall : (natChars n).all isDigitChar = true :=
      List.all_eq_true.mpr (fun c hc => natChars_all_digit n c hc)
    rw [parseNatDigits, if_pos (by simp [natChars_ne_nil n, hall])]
    congr 1
    rw [natChars, if_neg h,
      digitsVal_of_digits _ (fun d hd => natDigitsRev_lt d hd),
      natDigitsRev_val (by omega)]

theorem pyLStrip_of_no_space {s : PyStr} (h : ∀ c ∈ s, pyIsSpace c = false) :
    pyLStrip s = s := by
  cases s with
  | nil => rfl
  | cons c t =>
    simp [pyLStrip, List.dropWhile_cons, h c (List.mem_cons_self c t)]

theorem pyStrip_of_no_space {s : PyStr} (h : ∀ c ∈ s, pyIsSpace c = false) :
    pyStrip s = s := by
  rw [pyStrip, pyLStrip_of_no_space h, pyRStrip]
  have hrev : s.reverse.dropWhile pyIsSpace = s.reverse :=
    pyLStrip_of_no_space (fun c hc => h c (List.mem_reverse.mp hc))
  rw [hrev, List.reverse_reverse]

theorem intChars_no_space (n : ℤ) : ∀ c ∈ intChars n, pyIsSpace c = false := by
  intro c hc
  rw [intChars] at hc
  split at hc
  · rcases List.mem_cons.mp hc with rfl | hc
    · rfl
    · exact not_space_of_digit (natChars_all_digit _ c hc)
  · exact not_space_of_digit (natChars_all_digit _ c hc)

theorem natChars_head_not_sign (n : ℕ) {c : Char} {rest : PyStr}
    (h : natChars n = c :: rest) : c ≠ '-' ∧ c ≠ '+' := by
  have hd : isDigitChar c = true := natChars_all_digit n c (h ▸ List.mem_cons_self c rest)
  rcases isDigitChar_elim hd with rfl|rfl|rfl|rfl|rfl|rfl|rfl|rfl|rfl|rfl <;> exact ⟨by decide, by decide⟩

/-- `int(str(n)) = n`: parsing the decimal rendering of an integer gives
it back. -/
theorem pyParseInt_intChars (n : ℤ) : pyParseInt (intChars n) = some n := by
  rw [pyParseInt, pyStrip_of_no_space (intChars_no_space n)]
  by_cases hneg : n < 0
  · rw [intChars, if_pos hneg]
    have : pyParseIntCore ('-' :: natChars n.natAbs) =
        match parseNatDigits (natChars n.natAbs) with
        | some k => some (-(k : ℤ))
        | none => none := by
      rw [pyParseIntCore, if_pos rfl]
    rw [this, parseNatDigits_natChars]
    have h3 : -((n.natAbs : ℤ)) = n := by omega
    exact congrArg some h3
  · rw [intChars, if_neg hneg]
    rcases hcons : natChars n.natAbs with _ | ⟨c, rest⟩
    · exact absurd hcons (natChars_ne_nil _)
    · obtain ⟨h1, h2⟩ := natChars_head_not_sign _ hcons
      have : pyParseIntCore (c :: rest) =
          match parseNatDigits (c :: rest) with
          | some k => some ((k : ℤ))
          | none => none := by
        rw [pyParseIntCore, if_neg h1, if_neg h2]
      rw [this, ← hcons, parseNatDigits_natChars]
      have h3 : ((n.natAbs : ℤ)) = n := by omega
      exact congrArg some h3

theorem intChars_ne_nil (n : ℤ) : intChars n ≠ [] := by
  rw [intChars]
  split
  · simp
  · exact natChars_ne_nil _

/-! ## Claim C1: conversion round trips -/

theorem roundTripFrom_int (n : ℤ) : roundTripFrom (.int n) "int" = .ok (.int n) := by
  have h1 : convert_from_system_type (.int n) "int" = .ok (.str (intChars n)) := rfl
  rw [roundTripFrom, h1]
  show convert_to_system_type (.str (intChars n)) "int" = .ok (.int n)
  rw [convert_to_system_type.eq_def]
  rw [if_neg (by simp [intChars_ne_nil n]), if_pos rfl]
  have h2 : pyInt (.str (intChars n)) = .ok n := by
    simp only [pyInt, pyParseInt_intChars]
  rw [h2]
  rfl

theorem roundTripFrom_list (l : List PyStr) : roundTripFrom (.list l) "list" = .ok (.list l) := by
  have h1 : convert_from_system_type (.list l) "list" = .ok (.list l) := rfl
  rw [roundTripFrom, h1]
  show convert_to_system_type (.list l) "list" = .ok (.list l)
  rw [convert_to_system_type.eq_def]
  rw [if_neg (by simp)]
  rfl

theorem roundTripTo_int (n : ℤ) :
    roundTripTo (.str (intChars n)) "int" = .ok (.str (intChars n)) := by
  rw [roundTripTo, convert_to_system_type.eq_def]
  rw [if_neg (by simp [intChars_ne_nil n]), if_pos rfl]
  have h2 : pyInt (.str (intChars n)) = .ok n := by
    simp only [pyInt, pyParseInt_intChars]
  rw [h2]
  have h3 : (Except.ok n).map PyVal.int = (.ok (.int n) : Except PyErr PyVal) := rfl
  rw [h3]
  rfl

theorem roundTripTo_str (s : PyStr) : roundTripTo (.str s) "str" = .ok (.str s) := by
  rcases hs : s with _ | ⟨c, t⟩
  · rfl
  · rw [roundTripTo, convert_to_system_type.eq_def]
    rw [if_neg (by simp), if_neg (by decide), if_neg (by decide)]
    rfl

theorem roundTripFrom_bool (b : Bool) : roundTripFrom (.bool b) "bool" = .ok (.bool b) := by
  cases b <;> decide

/-- C1 (amended): the conversion pair of `BaseConfig` round-trips for
boolean, integer and list system values (including `0`, negative
integers and the empty list), and for the storage strings produced by
`convert_from_system_type` for the boolean, integer and string types
(`'True'`/`'False'`/`''`, signed decimal renderings, arbitrary strings).
Floats are excluded: see the counterexample. -/
theorem claim_C1_round_trips :
    (∀ b : Bool, roundTripFrom (.bool b) "bool" = .ok (.bool b)) ∧
    (∀ n : ℤ, roundTripFrom (.int n) "int" = .ok (.int n)) ∧
    (∀ l : List PyStr, roundTripFrom (.list l) "list" = .ok (.list l)) ∧
    (∀ x : PyStr, (x = ("True").data ∨ x = ("False").data ∨ x = []) →
      roundTripTo (.str x) "bool" = .ok (.str x)) ∧
    (∀ n : ℤ, roundTripTo (.str (intChars n)) "int" = .ok (.str (intChars n))) ∧
    (roundTripTo (.str []) "int" = .ok (.str [])) ∧
    (∀ s : PyStr, roundTripTo (.str s) "str" = .ok (.str s)) := by
  refine ⟨roundTripFrom_bool, roundTripFrom_int, roundTripFrom_list, ?_,
    roundTripTo_int, by decide, roundTripTo_str⟩
  rintro x (rfl | rfl | rfl) <;> decide

/-- C1 witness: the round trips evaluated at concrete boundary inputs. -/
theorem claim_C1_round_trips_witness :
    roundTripFrom (.bool true) "bool" = .ok (.bool true) ∧
    roundTripFrom (.int (-3)) "int" = .ok (.int (-3)) ∧
    roundTripFrom (.int 0) "int" = .ok (.int 0) ∧
    roundTripFrom (.list []) "list" = .ok (.list []) ∧
    roundTripTo (.str ("False").data) "bool" = .ok (.str ("False").data) ∧
    roundTripTo (.str (intChars (-12))) "int" = .ok (.str (intChars (-12))) ∧
    roundTripTo (.str ("abc").data) "str" = .ok (.str ("abc").data) :=
  ⟨claim_C1_round_trips.1 true,
   claim_C1_round_trips.2.1 (-3),
   claim_C1_round_trips.2.1 0,
   claim_C1_round_trips.2.2.1 [],
   claim_C1_round_trips.2.2.2.1 _ (Or.inr (Or.inl rfl)),
   claim_C1_round_trips.2.2.2.2.1 (-12),
   claim_C1_round_trips.2.2.2.2.2.2 _⟩

/-! ## Claims C3 and C7: service start -/

/-- C3 (code bug evidence): without elevated privileges — and not
already running or starting — `start` emits the sudo diagnostic but does
**not** stop: the systemd start request is still issued and the polling
loop still runs.  The missing `return` after the diagnostic (compare
`stop`, `enable`, `disable`) makes the documented no-op untrue. -/
theorem claim_C3_start_without_sudo_not_noop (api : Bool) (tr : ℕ → StartObs) :
    start false false false api tr =
      .diagNoSudo :: .startRequest :: startLoop api tr 1 240 ∧
    .startRequest ∈ start false false false api tr := by
  refine ⟨rfl, ?_⟩
  show StartEvent.startRequest ∈
    StartEvent.diagNoSudo :: StartEvent.startRequest :: startLoop api tr 1 240
  exact List.mem_cons_of_mem _ (List.mem_cons_self _ _)

theorem startLoop_abort (api : Bool) (tr : ℕ → StartObs) :
    ∀ (fuel i k : ℕ), i ≤ k → k < i + fuel →
    (∀ j, i ≤ j → j < k →
      (tr j).status = 0 ∧ (tr j).pid ≠ 0 ∧ start_ready api (tr j) = false) →
    ((tr k).status ≠ 0 →
      startLoop api tr i fuel =
        (List.range' i (k - i)).map .progress ++
          [.printLogs, .diagFailStatus (tr k).status]) ∧
    ((tr k).status = 0 → (tr k).pid = 0 →
      startLoop api tr i fuel =
        (List.range' i (k - i)).map .progress ++ [.printLogs, .diagFailPid]) := by
  intro fuel
  induction fuel with
  | zero => intro i k h1 h2 _; omega
  | succ f ih =>
    intro i k h1 h2 hprev
    by_cases hik : i = k
    · subst hik
      constructor
      · intro hst
        rw [startLoop]
        rw [if_pos hst]
        simp
      · intro h0 hp
        rw [startLoop]
        rw [if_neg (by simp [h0]), if_pos hp]
        simp
    · have hlt : i < k := lt_of_le_of_ne h1 hik
      obtain ⟨hs0, hp0, hr0⟩ := hprev i (le_refl i) hlt
      have hstep : startLoop api tr i (f + 1) = .progress i :: startLoop api tr (i + 1) f := by
        rw [startLoop]
        rw [if_neg (by simp [hs0]), if_neg hp0, hr0]
        simp
      have ihk := ih (i + 1) k (by omega) (by omega)
        (fun j hj1 hj2 => hprev j (by omega) hj2)
      have hrange : List.range' i (k - i) = i :: List.range' (i + 1) (k - (i + 1)) := by
        have : k - i = (k - (i + 1)) + 1 := by omega
        rw [this, List.range'_succ]
      constructor
      · intro hst
        rw [hstep, ihk.1 hst, hrange]
        simp
      · intro h0 hp
        rw [hstep, ihk.2 h0 hp, hrange]
        simp

/-- C7: during the polling loop of `start`, on the first tick reporting a
non-zero `ExecMainStatus` the loop terminates at once — recent logs are
surfaced, the failure diagnostic is printed, and no further tick runs;
likewise, on the first tick reporting a zero PID (with a zero exit
status) it aborts with the no-PID failure. -/
theorem claim_C7_start_abort (api : Bool) (tr : ℕ → StartObs) (k : ℕ)
    (hk1 : 1 ≤ k) (hk : k ≤ 240)
    (hprev : ∀ j, 1 ≤ j → j < k →
      (tr j).status = 0 ∧ (tr j).pid ≠ 0 ∧ start_ready api (tr j) = false) :
    ((tr k).status ≠ 0 →
      start false false true api tr =
        .startRequest :: ((List.range' 1 (k - 1)).map .progress ++
          [.printLogs, .diagFailStatus (tr k).status])) ∧
    ((tr k).status = 0 → (tr k).pid = 0 →
      start false false true api tr =
        .startRequest :: ((List.range' 1 (k - 1)).map .progress ++
          [.printLogs, .diagFailPid])) := by
  have habort := startLoop_abort api tr 240 1 k hk1 (by omega) hprev
  have hstart : start false false true api tr = .startRequest :: startLoop api tr 1 240 := rfl
  constructor
  · intro hst
    rw [hstart, habort.1 hst]
  · intro h0 hp
    rw [hstart, habort.2 h0 hp]

/-- C7 witness: a concrete trace that is healthy and unready at tick 1
and reports exit status 3 at tick 2 — the run is exactly the start
request, one progress line, the surfaced logs and the failure
diagnostic. -/
theorem claim_C7_start_abort_witness :
    start false false true false
        (fun t => if t = 2 then ⟨5, 3, none, 11⟩ else ⟨5, 0, none, t⟩) =
      [.startRequest, .progress 1, .printLogs, .diagFailStatus 3] := by
  have h := (claim_C7_start_abort false
    (fun t => if t = 2 then ⟨5, 3, none, 11⟩ else ⟨5, 0, none, t⟩) 2
    (by omega) (by omega)
    (fun j hj1 hj2 => by
      have : j = 1 := by omega
      subst this
      refine ⟨by decide, by decide, by decide⟩)).1 (by decide)
  simpa using h

/-! ## Character and strip lemmas for the INI round trip -/

theorem pyLowerChar_cases (c : Char) :
    pyLowerChar c = c ∨
      ('a' ≤ pyLowerChar c ∧ pyLowerChar c ≤ 'z' ∧ 'A' ≤ c ∧ c ≤ 'Z') := by
  unfold pyLowerChar
  split
  all_goals first
  | (left; rfl)
  | (right; refine ⟨by decide, by decide, by decide, by decide⟩)

theorem pyIsSpace_of_letter {d : Char} (h1 : 'a' ≤ d) (h2 : d ≤ 'z') :
    pyIsSpace d = false := by
  have e1 : d ≠ ' ' := by rintro rfl; exact absurd h1 (by decide)
  have e2 : d ≠ '\t' := by rintro rfl; exact absurd h1 (by decide)
  have e3 : d ≠ '\n' := by rintro rfl; exact absurd h1 (by decide)
  have e4 : d ≠ '\r' := by rintro rfl; exact absurd h1 (by decide)
  have e5 : d ≠ '\x0b' := by rintro rfl; exact absurd h1 (by decide)
  have e6 : d ≠ '\x0c' := by rintro rfl; exact absurd h1 (by decide)
  simp [pyIsSpace, e1, e2, e3, e4, e5, e6]

theorem pyIsSpace_pyLowerChar (c : Char) : pyIsSpace (pyLowerChar c) = pyIsSpace c := by
  rcases pyLowerChar_cases c with h | ⟨h1, h2, h3, h4⟩
  · rw [h]
  · rw [pyIsSpace_of_letter h1 h2]
    have e1 : c ≠ ' ' := by rintro rfl; exact absurd h3 (by decide)
    have e2 : c ≠ '\t' := by rintro rfl; exact absurd h3 (by decide)
    have e3 : c ≠ '\n' := by rintro rfl; exact absurd h3 (by decide)
    have e4 : c ≠ '\r' := by rintro rfl; exact absurd h3 (by decide)
    have e5 : c ≠ '\x0b' := by rintro rfl; exact absurd h3 (by decide)
    have e6 : c ≠ '\x0c' := by rintro rfl; exact absurd h3 (by decide)
    simp [pyIsSpace, e1, e2, e3, e4, e5, e6]

theorem delimChar_pyLowerChar (c : Char) : delimChar (pyLowerChar c) = delimChar c := by
  rcases pyLowerChar_cases c with h | ⟨h1, h2, h3, h4⟩
  · rw [h]
  · have e1 : pyLowerChar c ≠ '=' := by intro h; rw [h] at h1; exact absurd h1 (by decide)
    have e2 : pyLowerChar c ≠ ':' := by intro h; rw [h] at h1; exact absurd h1 (by decide)
    have e3 : c ≠ '=' := by rintro rfl; exact absurd h3 (by decide)
    have e4 : c ≠ ':' := by rintro rfl; exact absurd h3 (by decide)
    simp [delimChar, e1, e2, e3, e4]

theorem pyLowerChar_ne_mark {c d : Char} (hd : d = '#' ∨ d = ';' ∨ d = '[')
    (hne : c ≠ d) : pyLowerChar c ≠ d := by
  rcases pyLowerChar_cases c with h | ⟨h1, h2, h3, h4⟩
  · rw [h]; exact hne
  · intro hcon
    rw [hcon] at h1 h2
    rcases hd with rfl | rfl | rfl
    · exact absurd h1 (by decide)
    · exact absurd h1 (by decide)
    · exact absurd h1 (by decide)

theorem pyLowerChar_of_letter {d : Char} (h1 : 'a' ≤ d) (h2 : d ≤ 'z') :
    pyLowerChar d = d := by
  unfold pyLowerChar
  split
  all_goals first
  | rfl
  | (exact absurd h1 (by decide))

theorem pyLowerChar_idem (c : Char) : pyLowerChar (pyLowerChar c) = pyLowerChar c := by
  rcases pyLowerChar_cases c with h | ⟨h1, h2, _, _⟩
  · rw [h]; exact h
  · exact pyLowerChar_of_letter h1 h2

theorem pyLower_idem (s : PyStr) : pyLower (pyLower s) = pyLower s := by
  rw [pyLower, pyLower, List.map_map]
  apply List.map_congr_left
  intro c _
  exact pyLowerChar_idem c

theorem dropWhile_head_false {p : Char → Bool} :
    ∀ (l : List Char) (c : Char) (t : List Char),
    l.dropWhile p = c :: t → p c = false := by
  intro l
  induction l with
  | nil => intro c t h; exact absurd h (by simp)
  | cons a l' ih =>
    intro c t h
    rw [List.dropWhile_cons] at h
    by_cases hp : p a = true
    · rw [if_pos hp] at h
      exact ih c t h
    · have hp' : p a = false := by
        cases hq : p a
        · rfl
        · exact absurd hq hp
      rw [if_neg (by simp [hp'])] at h
      have : a = c := (List.cons.inj h).1
      rw [← this]
      exact hp'

theorem dropWhile_idem (p : Char → Bool) (l : List Char) :
    (l.dropWhile p).dropWhile p = l.dropWhile p := by
  cases h : l.dropWhile p with
  | nil => rfl
  | cons c t =>
    rw [List.dropWhile_cons, if_neg]
    rw [dropWhile_head_false l c t h]
    simp

theorem pyRStrip_idem (s : PyStr) : pyRStrip (pyRStrip s) = pyRStrip s := by
  rw [pyRStrip, pyRStrip, List.reverse_reverse, dropWhile_idem]

theorem pyRStrip_prefix_self (s : PyStr) : pyRStrip s <+: s := by
  rw [pyRStrip]
  rw [← List.reverse_reverse s]
  rw [List.reverse_prefix, List.reverse_reverse]
  exact List.dropWhile_suffix pyIsSpace

theorem pyLStrip_of_strip_head {s : PyStr} :
    pyLStrip (pyRStrip (pyLStrip s)) = pyRStrip (pyLStrip s) := by
  cases h : pyRStrip (pyLStrip s) with
  | nil => rfl
  | cons c t =>
    have hpre : (c :: t) <+: pyLStrip s := h ▸ pyRStrip_prefix_self (pyLStrip s)
    obtain ⟨r, hr⟩ := hpre
    have hc : pyIsSpace c = false := by
      have : pyLStrip s = c :: (t ++ r) := by rw [← hr]; rfl
      exact dropWhile_head_false s c (t ++ r) this
    rw [pyLStrip, List.dropWhile_cons, if_neg (by simp [hc])]

theorem pyStrip_idem (s : PyStr) : pyStrip (pyStrip s) = pyStrip s := by
  rw [pyStrip, pyStrip, pyLStrip_of_strip_head, pyRStrip_idem]

theorem pyStrip_strip_parts (s : PyStr) :
    pyLStrip (pyStrip s) = pyStrip s ∧ pyRStrip (pyStrip s) = pyStrip s := by
  constructor
  · rw [pyStrip, pyLStrip_of_strip_head]
  · rw [pyStrip, pyRStrip_idem]

theorem pyRStrip_pyLower (s : PyStr) : pyRStrip (pyLower s) = pyLower (pyRStrip s) := by
  have hpred : (pyIsSpace ∘ pyLowerChar) = pyIsSpace := by
    funext c
    exact pyIsSpace_pyLowerChar c
  rw [pyRStrip, pyRStrip, pyLower, pyLower, ← List.map_reverse, List.dropWhile_map,
    hpred, ← List.map_reverse]

theorem pyRStrip_append_of {b : PyStr} (a : PyStr) (hb : pyRStrip b ≠ []) :
    pyRStrip (a ++ b) = a ++ pyRStrip b := by
  rw [pyRStrip, pyRStrip] at *
  rw [List.reverse_append, List.dropWhile_append]
  have hne : (b.reverse.dropWhile pyIsSpace).isEmpty = false := by
    cases hd : b.reverse.dropWhile pyIsSpace with
    | nil => exact absurd (by rw [hd]; rfl) hb
    | cons x t => rfl
  rw [hne]
  simp

theorem pyRStrip_append_space (k : PyStr) : pyRStrip (k ++ [' ']) = pyRStrip k := by
  rw [pyRStrip, pyRStrip, List.reverse_append]
  rfl

theorem pyLStrip_of_head {l : PyStr} {c : Char} (hhead : l.head? = some c)
    (hc : pyIsSpace c = false) : pyLStrip l = l := by
  cases l with
  | nil => exact absurd hhead (by simp)
  | cons x t =>
    have : x = c := by simpa using hhead
    subst this
    rw [pyLStrip, List.dropWhile_cons, if_neg (by simp [hc])]

theorem pyStrip_head_not_space {l : PyStr} {c : Char} {t : PyStr}
    (h : pyStrip l = c :: t) : pyIsSpace c = false := by
  have hpre : (c :: t) <+: pyLStrip l := by
    rw [pyStrip] at h
    exact h ▸ pyRStrip_prefix_self (pyLStrip l)
  obtain ⟨r, hr⟩ := hpre
  have : pyLStrip l = c :: (t ++ r) := by rw [← hr]; rfl
  exact dropWhile_head_false l c (t ++ r) this

theorem splitFirstDelim_no_delim_append {a : PyStr} {d : Char} (s : PyStr)
    (hd : delimChar d = true) (ha : ∀ c ∈ a, delimChar c = false) :
    splitFirstDelim (a ++ d :: s) = some (a, s) := by
  induction a with
  | nil =>
    rw [List.nil_append, splitFirstDelim, if_pos hd]
  | cons x t ih =>
    have hx : delimChar x = false := ha x (by simp)
    have ht : ∀ c ∈ t, delimChar c = false := fun c hc => ha c (by simp [hc])
    rw [List.cons_append, splitFirstDelim, if_neg (by simp [hx]), ih ht]

theorem splitFirstDelim_sound :
    ∀ (l a b : PyStr), splitFirstDelim l = some (a, b) →
    (∀ c ∈ a, delimChar c = false) ∧ ∃ d, delimChar d = true ∧ l = a ++ d :: b := by
  intro l
  induction l with
  | nil => intro a b h; exact absurd h (by rw [splitFirstDelim]; simp)
  | cons x t ih =>
    intro a b h
    rw [splitFirstDelim] at h
    by_cases hx : delimChar x = true
    · rw [if_pos hx] at h
      have ha : a = [] := (Prod.mk.injEq _ _ _ _ ▸ (Option.some.inj h)).1.symm
      have hb : b = t := ((Prod.mk.injEq _ _ _ _).mp (Option.some.inj h)).2.symm
      subst ha; subst hb
      exact ⟨by simp, x, hx, rfl⟩
    · rw [if_neg hx] at h
      cases hsplit : splitFirstDelim t with
      | none => rw [hsplit] at h; exact absurd h (by simp)
      | some p =>
        obtain ⟨a', b'⟩ := p
        rw [hsplit] at h
        have ha : a = x :: a' := ((Prod.mk.injEq _ _ _ _).mp (Option.some.inj h)).1.symm
        have hb : b = b' := ((Prod.mk.injEq _ _ _ _).mp (Option.some.inj h)).2.symm
        rw [ha, hb]
        obtain ⟨hnd, d, hd, heq⟩ := ih a' b' hsplit
        refine ⟨?_, d, hd, by rw [heq]; rfl⟩
        intro c hc
        rcases List.mem_cons.mp hc with rfl | hc'
        · cases hq : delimChar c
          · rfl
          · exact absurd hq hx
        · exact hnd c hc'

theorem pyRStrip_head {l : PyStr} {c : Char} {t : PyStr} (h : pyRStrip l = c :: t) :
    ∃ r, l = c :: (t ++ r) := by
  have hpre : (c :: t) <+: l := h ▸ pyRStrip_prefix_self l
  obtain ⟨r, hr⟩ := hpre
  exact ⟨r, by rw [← hr]; rfl⟩

theorem classifyIniLine_entry_good {line k v : PyStr}
    (h : classifyIniLine line = .entry k v) : GoodEntry (k, v) := by
  unfold classifyIniLine at h
  split at h
  · exact absurd h (by simp)
  · rename_i c rest hstrip
    split at h
    · exact absurd h (by simp)
    · rename_i h1
      split at h
      · exact absurd h (by simp)
      · rename_i h2
        split at h
        · exact absurd h (by simp)
        · rename_i h3
          split at h
          · exact absurd h (by simp)
          · rename_i kraw after hsp
            have h' : (if pyLower (pyRStrip kraw) = [] then IniLine.bad
                else IniLine.entry (pyLower (pyRStrip kraw)) (pyStrip after)) =
                IniLine.entry k v := h
            by_cases h4 : pyLower (pyRStrip kraw) = []
            · rw [if_pos h4] at h'; exact absurd h' (by simp)
            · rw [if_neg h4] at h'
              have hk : k = pyLower (pyRStrip kraw) := by
                have := (IniLine.entry.injEq _ _ _ _).mp h'
                exact this.1.symm
              have hv : v = pyStrip after := by
                have := (IniLine.entry.injEq _ _ _ _).mp h'
                exact this.2.symm
              obtain ⟨hnd, d, hdd, heq⟩ := splitFirstDelim_sound (c :: rest) kraw after hsp
              have hnotspace : pyIsSpace c = false := pyStrip_head_not_space hstrip
              have hne1 : c ≠ '#' := by
                intro hcon; rw [hcon] at h1; exact h1 (by simp)
              have hne2 : c ≠ ';' := by
                intro hcon; rw [hcon] at h1; exact h1 (by simp)
              refine ⟨⟨?_, ?_, ?_, ?_, ?_⟩, ?_, ?_⟩
              · rw [hk]; exact fun hcon => h4 hcon
              · intro ch hch
                rw [hk, pyLower] at hch
                obtain ⟨ch0, hch0, hmap⟩ := List.mem_map.mp hch
                have hmem : ch0 ∈ kraw := (pyRStrip_prefix_self kraw).sublist.mem hch0
                rw [← hmap, delimChar_pyLowerChar]
                exact hnd ch0 hmem
              · intro ch hch
                cases hr : pyRStrip kraw with
                | nil =>
                  exact absurd (by rw [hr]; rfl) h4
                | cons rc rtl =>
                  obtain ⟨r, hkraw⟩ := pyRStrip_head hr
                  have hcrc : rc = c := by
                    rw [hkraw] at heq
                    exact ((List.cons.inj heq).1).symm
                  have hhead : ch = pyLowerChar c := by
                    rw [hk, hr, pyLower] at hch
                    have hlow : pyLowerChar rc = ch := by simpa using hch
                    rw [← hlow, hcrc]
                  rw [hhead]
                  refine ⟨?_, ?_, ?_, ?_⟩
                  · rw [pyIsSpace_pyLowerChar]; exact hnotspace
                  · exact pyLowerChar_ne_mark (Or.inl rfl) hne1
                  · exact pyLowerChar_ne_mark (Or.inr (Or.inl rfl)) hne2
                  · exact pyLowerChar_ne_mark (Or.inr (Or.inr rfl)) h3
              · rw [hk, pyRStrip_pyLower, pyRStrip_idem]
              · rw [hk, pyLower_idem]
              · rw [hv]; exact (pyStrip_strip_parts after).1
              · rw [hv]; exact (pyStrip_strip_parts after).2

theorem classifyIniLine_cons_eq (line : PyStr) (c : Char) (rest : PyStr)
    (h : pyStrip line = c :: rest) :
    classifyIniLine line =
      (if c = '#' || c = ';' then IniLine.comment
       else if (match line with | [] => false | c0 :: _ => pyIsSpace c0) then
         IniLine.continuation
       else if c = '[' then IniLine.header
       else match splitFirstDelim (c :: rest) with
         | none => IniLine.bad
         | some (kraw, after) =>
           let k := pyLower (pyRStrip kraw)
           if k = [] then IniLine.bad else IniLine.entry k (pyStrip after)) := by
  unfold classifyIniLine
  rw [h]

theorem classifyIniLine_renderEntry {k v : PyStr} (h : GoodEntry (k, v)) :
    classifyIniLine (renderEntry (k, v)) = .entry k v := by
  obtain ⟨⟨hk0, hkd, hkhead, hkr, hkl⟩, hvl, hvr⟩ := h
  cases k with
  | nil => exact absurd rfl hk0
  | cons c kt =>
    obtain ⟨hcs, hch, hcsemi, hcbr⟩ := hkhead c rfl
    have hsdata : (" = ").data = [' ', '=', ' '] := rfl
    have hline : renderEntry (c :: kt, v) = ((c :: kt) ++ [' ', '=', ' ']) ++ v := by
      rw [renderEntry, hsdata]
    have hlhead : renderEntry (c :: kt, v) = c :: ((kt ++ [' ', '=', ' ']) ++ v) := by
      rw [hline]; simp
    have hls : pyLStrip (renderEntry (c :: kt, v)) = renderEntry (c :: kt, v) :=
      pyLStrip_of_head (by rw [hlhead]; rfl) hcs
    have ha : ∀ ch ∈ (c :: kt) ++ [' '], delimChar ch = false := by
      intro ch hch2
      rcases List.mem_append.mp hch2 with h1 | h1
      · exact hkd ch h1
      · have he : ch = ' ' := by simpa using h1
        rw [he]; rfl
    have hkey : pyLower (pyRStrip ((c :: kt) ++ [' '])) = c :: kt := by
      rw [pyRStrip_append_space, hkr, hkl]
    cases v with
    | nil =>
      have hstrip : pyStrip (renderEntry (c :: kt, [])) =
          c :: (kt ++ [' ', '=']) := by
        rw [pyStrip, hls, hline, List.append_nil]
        have h1 : (c :: kt) ++ ([' ', '=', ' '] : List Char) =
            ((c :: kt) ++ [' ', '=']) ++ [' '] := by simp
        rw [h1, pyRStrip_append_space]
        have h2 : (c :: kt) ++ ([' ', '='] : List Char) =
            ((c :: kt) ++ [' ']) ++ ['='] := by simp
        rw [h2, pyRStrip_append_of _ (by decide)]
        have h3 : pyRStrip ['='] = ['='] := rfl
        rw [h3]; simp
      rw [classifyIniLine_cons_eq _ c (kt ++ [' ', '=']) hstrip]
      rw [if_neg (by simp [hch, hcsemi]), if_neg (by rw [hlhead]; simp [hcs]),
        if_neg hcbr]
      have hspl : splitFirstDelim (c :: (kt ++ [' ', '='])) =
          some ((c :: kt) ++ [' '], []) := by
        have h1 : c :: (kt ++ ([' ', '='] : List Char)) =
            ((c :: kt) ++ [' ']) ++ '=' :: [] := by simp
        rw [h1]
        exact splitFirstDelim_no_delim_append [] (by decide) ha
      rw [hspl]
      show (if pyLower (pyRStrip ((c :: kt) ++ [' '])) = [] then IniLine.bad
        else IniLine.entry (pyLower (pyRStrip ((c :: kt) ++ [' ']))) (pyStrip [])) =
        IniLine.entry (c :: kt) []
      rw [hkey, if_neg (by simp)]
      rfl
    | cons vc vt =>
      have hrs : pyRStrip (renderEntry (c :: kt, vc :: vt)) =
          renderEntry (c :: kt, vc :: vt) := by
        rw [hline, pyRStrip_append_of _ (by rw [hvr]; simp), hvr]
      have hstrip : pyStrip (renderEntry (c :: kt, vc :: vt)) =
          c :: ((kt ++ [' ', '=', ' ']) ++ (vc :: vt)) := by
        rw [pyStrip, hls, hrs, hlhead]
      rw [classifyIniLine_cons_eq _ c ((kt ++ [' ', '=', ' ']) ++ (vc :: vt)) hstrip]
      rw [if_neg (by simp [hch, hcsemi]), if_neg (by rw [hlhead]; simp [hcs]),
        if_neg hcbr]
      have hspl : splitFirstDelim (c :: ((kt ++ [' ', '=', ' ']) ++ (vc :: vt))) =
          some ((c :: kt) ++ [' '], ' ' :: vc :: vt) := by
        have h1 : c :: ((kt ++ ([' ', '=', ' '] : List Char)) ++ (vc :: vt)) =
            ((c :: kt) ++ [' ']) ++ '=' :: (' ' :: vc :: vt) := by simp
        rw [h1]
        exact splitFirstDelim_no_delim_append (' ' :: vc :: vt) (by decide) ha
      rw [hspl]
      show (if pyLower (pyRStrip ((c :: kt) ++ [' '])) = [] then IniLine.bad
        else IniLine.entry (pyLower (pyRStrip ((c :: kt) ++ [' '])))
          (pyStrip (' ' :: vc :: vt))) =
        IniLine.entry (c :: kt) (vc :: vt)
      have hval : pyStrip (' ' :: vc :: vt) = vc :: vt := by
        rw [pyStrip]
        have h1 : pyLStrip (' ' :: vc :: vt) = pyLStrip (vc :: vt) := by
          rw [pyLStrip, pyLStrip, List.dropWhile_cons, if_pos (by decide)]
        rw [h1, hvl, hvr]
      rw [hkey, hval, if_neg (by simp)]

theorem iniParseLines_good :
    ∀ (lines : List PyStr) (acc res : List (PyStr × PyStr)),
    iniParseLines lines acc = .ok res →
    (∀ e ∈ acc, GoodEntry e) → (acc.map Prod.fst).Nodup →
    (∀ e ∈ res, GoodEntry e) ∧ (res.map Prod.fst).Nodup := by
  intro lines
  induction lines with
  | nil =>
    intro acc res h hg hn
    have hacc : acc = res := by
      rw [iniParseLines] at h
      exact Except.ok.inj h
    rw [← hacc]
    exact ⟨hg, hn⟩
  | cons line rest ih =>
    intro acc res h hg hn
    rw [iniParseLines] at h
    split at h
    · exact ih acc res h hg hn
    · exact ih acc res h hg hn
    · exact absurd h (by simp)
    · exact absurd h (by simp)
    · exact absurd h (by simp)
    · rename_i k v hcl
      split at h
      · exact absurd h (by simp)
      · rename_i hc
        apply ih _ res h
        · intro e he
          rcases List.mem_append.mp he with h1 | h1
          · exact hg e h1
          · have he2 : e = (k, v) := by simpa using h1
            rw [he2]
            exact classifyIniLine_entry_good hcl
        · rw [List.map_append]
          rw [List.nodup_append]
          refine ⟨hn, by simp, ?_⟩
          intro a ha hb
          have hak : a = k := by simpa using hb
          rw [hak] at ha
          exact (by simpa using hc : k ∉ acc.map Prod.fst) ha

theorem iniParseLines_render :
    ∀ (es acc : List (PyStr × PyStr)),
    (∀ e ∈ es, GoodEntry e) → ((acc ++ es).map Prod.fst).Nodup →
    iniParseLines (es.map renderEntry ++ [[]]) acc = .ok (acc ++ es) := by
  intro es
  induction es with
  | nil =>
    intro acc _ _
    rw [List.map_nil, List.nil_append]
    show iniParseLines [] acc = .ok (acc ++ [])
    rw [iniParseLines, List.append_nil]
  | cons e es' ih =>
    obtain ⟨k, v⟩ := e
    intro acc hg hn
    rw [List.map_cons, List.cons_append, iniParseLines]
    have hcl : classifyIniLine (renderEntry (k, v)) = .entry k v :=
      classifyIniLine_renderEntry (hg (k, v) (by simp))
    rw [hcl]
    show (if (acc.map Prod.fst).contains k then
        (Except.error IniErr.duplicateOption : Except IniErr (List (PyStr × PyStr)))
      else iniParseLines (es'.map renderEntry ++ [[]]) (acc ++ [(k, v)])) =
      .ok (acc ++ (k, v) :: es')
    have hknotin : k ∉ acc.map Prod.fst := by
      rw [List.map_append] at hn
      have hdisj := (List.nodup_append.mp hn).2.2
      intro hmem
      exact hdisj hmem (by simp)
    rw [if_neg (by simpa using hknotin)]
    have hacc : (acc ++ [(k, v)]) ++ es' = acc ++ (k, v) :: es' := by simp
    have hrec := ih (acc ++ [(k, v)])
      (fun e2 he2 => hg e2 (List.mem_cons_of_mem _ he2))
      (by rw [hacc]; exact hn)
    rw [hrec, hacc]

theorem isHeaderish_of_entry_false {line k v : PyStr}
    (h : classifyIniLine line = .entry k v) : isHeaderish line = false := by
  cases hh : isHeaderish line
  · rfl
  · exfalso
    rw [isHeaderish] at hh
    have hpre := (Bool.and_eq_true _ _ ▸ hh).1
    have hpre2 : (("[").data) <+: pyStrip line := List.isPrefixOf_iff_prefix.mp hpre
    obtain ⟨r, hr⟩ := hpre2
    have hstrip : pyStrip line = '[' :: r := by rw [← hr]; rfl
    rw [classifyIniLine_cons_eq line '[' r hstrip] at h
    rw [if_neg (by decide)] at h
    split at h
    · exact absurd h (by simp)
    · rw [if_pos rfl] at h
      exact absurd h (by simp)

theorem isHeaderish_header (group : PyStr) :
    isHeaderish ('[' :: (group ++ [']'])) = true := by
  rw [isHeaderish]
  have hstrip : pyStrip ('[' :: (group ++ [']'])) = '[' :: (group ++ [']']) := by
    rw [pyStrip]
    have hls : pyLStrip ('[' :: (group ++ [']'])) = '[' :: (group ++ [']']) :=
      pyLStrip_of_head rfl (by decide)
    rw [hls]
    have h1 : '[' :: (group ++ [']']) = ('[' :: group) ++ [']'] := by simp
    rw [h1, pyRStrip_append_of _ (by decide)]
    have h2 : pyRStrip [']'] = [']'] := rfl
    rw [h2]
  rw [hstrip, Bool.and_eq_true]
  constructor
  · exact List.isPrefixOf_iff_prefix.mpr ⟨group ++ [']'], rfl⟩
  · exact List.isSuffixOf_iff_suffix.mpr ⟨'[' :: group, rfl⟩

theorem iniSaveSpoofed_nil (group : PyStr) : iniSaveSpoofed group [] = [] := by
  show (if isHeaderish ('[' :: (group ++ [']'])) = true then ([] : List PyStr)
    else ('[' :: (group ++ [']'])) :: [[]]) = []
  rw [if_pos (isHeaderish_header group)]

theorem iniSaveSpoofed_cons (group : PyStr) (e : PyStr × PyStr)
    (es : List (PyStr × PyStr)) (hne : ¬pyStrip (renderEntry e) = []) :
    iniSaveSpoofed group (e :: es) = (e :: es).map renderEntry ++ [[]] := by
  show (if isHeaderish ('[' :: (group ++ [']'])) = true then
      (if pyStrip (renderEntry e) = [] then es.map renderEntry ++ [[]]
       else renderEntry e :: (es.map renderEntry ++ [[]]))
    else ('[' :: (group ++ [']'])) :: ((e :: es).map renderEntry ++ [[]])) =
    (e :: es).map renderEntry ++ [[]]
  rw [if_pos (isHeaderish_header group), if_neg hne]
  rfl

theorem pyStrip_renderEntry_ne_nil {e : PyStr × PyStr} (h : GoodEntry e) :
    ¬pyStrip (renderEntry e) = [] := by
  obtain ⟨k, v⟩ := e
  intro hnil
  have hcl := classifyIniLine_renderEntry h
  unfold classifyIniLine at hcl
  rw [hnil] at hcl
  exact absurd hcl (by simp)

/-! ## Claim C8: hierarchical set/get -/

theorem assocGet_assocSet (e : List (PyStr × JVal)) (k : PyStr) (v : JVal) :
    assocGet (assocSet e k v) k = some v := by
  induction e with
  | nil => simp [assocSet, assocGet]
  | cons h rest ih =>
    obtain ⟨k1, v1⟩ := h
    rw [assocSet]
    by_cases hk : k1 = k
    · rw [if_pos hk, assocGet, if_pos hk]
    · rw [if_neg hk, assocGet, if_neg hk]
      exact ih

theorem jSetVal_obj_result (v : JVal) :
    ∀ (parts : List PyStr) (e : List (PyStr × JVal)) (j : JVal),
    jSetVal (.obj e) parts v = .ok j → ∃ e1, j = .obj e1 := by
  intro parts
  cases parts with
  | nil =>
    intro e j h
    rw [jSetVal] at h
    exact ⟨e, (Except.ok.inj h).symm⟩
  | cons p rest =>
    cases rest with
    | nil =>
      intro e j h
      rw [jSetVal] at h
      exact ⟨assocSet e p v, (Except.ok.inj h).symm⟩
    | cons p2 rest2 =>
      intro e j h
      rw [jSetVal] at h
      cases hget : assocGet e p with
      | none =>
        rw [hget] at h
        have h2 : (match jSetVal (JVal.obj []) (p2 :: rest2) v with
            | Except.ok j1 => Except.ok (JVal.obj (assocSet e p j1))
            | Except.error er => (Except.error er : Except PyErr JVal)) = Except.ok j := h
        cases hrec : jSetVal (.obj []) (p2 :: rest2) v with
        | error er => rw [hrec] at h2; exact absurd h2 (by simp)
        | ok jj =>
          rw [hrec] at h2
          exact ⟨assocSet e p jj, (Except.ok.inj h2).symm⟩
      | some j0 =>
        rw [hget] at h
        have h2 : (match jSetVal j0 (p2 :: rest2) v with
            | Except.ok j1 => Except.ok (JVal.obj (assocSet e p j1))
            | Except.error er => (Except.error er : Except PyErr JVal)) = Except.ok j := h
        cases hrec : jSetVal j0 (p2 :: rest2) v with
        | error er => rw [hrec] at h2; exact absurd h2 (by simp)
        | ok jj =>
          rw [hrec] at h2
          exact ⟨assocSet e p jj, (Except.ok.inj h2).symm⟩

theorem jWalk_after_jSetVal (v : JVal) :
    ∀ (parts : List PyStr), parts ≠ [] → ∀ (j j1 : JVal) (d : PyStr),
    jSetVal j parts v = .ok j1 → jWalk j1 parts d = .ok v := by
  intro parts
  induction parts with
  | nil => intro h; exact absurd rfl h
  | cons p rest ih =>
    intro _ j j1 d hset
    cases j with
    | prim w =>
      rw [jSetVal] at hset
      exact absurd hset (by simp)
    | obj e =>
      cases rest with
      | nil =>
        rw [jSetVal] at hset
        have hj1 : j1 = .obj (assocSet e p v) := (Except.ok.inj hset).symm
        subst hj1
        rw [jWalk, jContains, assocGet_assocSet]
        rw [show (some v).isSome = true from rfl]
        rw [jGetItem, assocGet_assocSet]
        rfl
      | cons p2 rest2 =>
        rw [jSetVal] at hset
        cases hget : assocGet e p with
        | none =>
          rw [hget] at hset
          have h2 : (match jSetVal (JVal.obj []) (p2 :: rest2) v with
              | Except.ok jj => Except.ok (JVal.obj (assocSet e p jj))
              | Except.error er => (Except.error er : Except PyErr JVal)) = Except.ok j1 := hset
          cases hrec : jSetVal (.obj []) (p2 :: rest2) v with
          | error er => rw [hrec] at h2; exact absurd h2 (by simp)
          | ok jj =>
            rw [hrec] at h2
            have hj1 : j1 = .obj (assocSet e p jj) := (Except.ok.inj h2).symm
            subst hj1
            rw [jWalk, jContains, assocGet_assocSet]
            rw [show (some jj).isSome = true from rfl]
            rw [jGetItem, assocGet_assocSet]
            exact ih (by simp) (.obj []) jj d hrec
        | some j0 =>
          rw [hget] at hset
          have h2 : (match jSetVal j0 (p2 :: rest2) v with
              | Except.ok jj => Except.ok (JVal.obj (assocSet e p jj))
              | Except.error er => (Except.error er : Except PyErr JVal)) = Except.ok j1 := hset
          cases hrec : jSetVal j0 (p2 :: rest2) v with
          | error er => rw [hrec] at h2; exact absurd h2 (by simp)
          | ok jj =>
            rw [hrec] at h2
            have hj1 : j1 = .obj (assocSet e p jj) := (Except.ok.inj h2).symm
            subst hj1
            rw [jWalk, jContains, assocGet_assocSet]
            rw [show (some jj).isSome = true from rfl]
            rw [jGetItem, assocGet_assocSet]
            exact ih (by simp) j0 jj d hrec

theorem jWalk_of_pathMisses (d : PyStr) :
    ∀ (parts : List PyStr) (j : JVal),
    pathMisses j parts = true → jWalk j parts d = .ok (.prim (.str d)) := by
  intro parts
  induction parts with
  | nil => intro j h; exact absurd h (by simp [pathMisses])
  | cons p rest ih =>
    intro j h
    rw [pathMisses] at h
    rw [jWalk]
    cases hc : jContains j p with
    | error e => rw [hc] at h; exact absurd h (by simp)
    | ok b =>
      rw [hc] at h
      cases b with
      | false => rfl
      | true =>
        cases hg : jGetItem j p with
        | error e => rw [hg] at h; exact absurd h (by simp)
        | ok j1 =>
          rw [hg] at h
          exact ih j1 h

/-- Storing an already-converted value and converting again is the
identity for every declared type except `bool` (for which the second
conversion calls `.lower()` on a Python bool and raises). -/
theorem convert_to_idem (value w : PyVal) (t : String) (ht : t ≠ "bool")
    (h : convert_to_system_type value t = .ok w) :
    convert_to_system_type w t = .ok w := by
  rw [convert_to_system_type.eq_def] at h
  by_cases h0 : value = PyVal.str []
  · rw [if_pos h0] at h
    have hw : w = .str [] := (Except.ok.inj h).symm
    subst hw
    rw [convert_to_system_type.eq_def, if_pos rfl]
  · rw [if_neg h0] at h
    by_cases hint : t = "int"
    · rw [if_pos hint] at h
      cases hpi : pyInt value with
      | error e => rw [hpi] at h; exact absurd h (by simp [Except.map])
      | ok n =>
        rw [hpi] at h
        have hw : w = .int n := by
          have : (Except.ok n).map PyVal.int = (.ok (.int n) : Except PyErr PyVal) := rfl
          rw [this] at h
          exact (Except.ok.inj h).symm
        subst hw
        rw [convert_to_system_type.eq_def, if_neg (by simp), if_pos hint]
        subst hint
        rfl
    · rw [if_neg hint, if_neg ht] at h
      have hw : w = value := (Except.ok.inj h).symm
      subst hw
      rw [convert_to_system_type.eq_def, if_neg h0, if_neg hint, if_neg ht]

/-- C8 (amended): for a registered option whose declared type is not
`bool`, a successful `set_value` stores the converted value at the
slash path (creating intermediate dicts) and a subsequent `get_value`
returns exactly that value; and whenever the path walk meets a missing
component, `get_value` returns the descriptor's default converted to the
declared type, without error.  `bool`-typed options are excluded: see
the counterexample. -/
theorem claim_C8_json_set_get (opts : List (String × OptEntry))
    (data : List (PyStr × JVal)) (name : String) (o : OptEntry) (value w : PyVal)
    (hopt : lookupOpt opts name = some o)
    (hnb : o.valType ≠ "bool")
    (hconv : convert_to_system_type value o.valType = .ok w)
    (hparts : splitSlash o.key ≠ []) :
    (∀ d1 : List (PyStr × JVal),
      JSONConfig_set_value opts data name value = .ok d1 →
      JSONConfig_get_value opts d1 name = .ok (.prim w)) ∧
    (∀ (data0 : List (PyStr × JVal)) (dv : PyVal),
      pathMisses (.obj data0) (splitSlash o.key) = true →
      convert_to_system_type (.str o.default) o.valType = .ok dv →
      JSONConfig_get_value opts data0 name = .ok (.prim dv)) := by
  constructor
  · intro d1 hset
    rw [JSONConfig_set_value, hopt] at hset
    have hset2 : (match convert_to_system_type value o.valType with
        | Except.error e => (Except.error e : Except PyErr (List (PyStr × JVal)))
        | Except.ok w =>
          match jSetVal (JVal.obj data) (splitSlash o.key) (JVal.prim w) with
          | Except.ok (JVal.obj e) => Except.ok e
          | Except.ok (JVal.prim _) => Except.ok data
          | Except.error e => Except.error e) = Except.ok d1 := hset
    rw [hconv] at hset2
    have hset3 : (match jSetVal (JVal.obj data) (splitSlash o.key) (JVal.prim w) with
        | Except.ok (JVal.obj e) => (Except.ok e : Except PyErr (List (PyStr × JVal)))
        | Except.ok (JVal.prim _) => Except.ok data
        | Except.error e => Except.error e) = Except.ok d1 := hset2
    cases hsv : jSetVal (.obj data) (splitSlash o.key) (.prim w) with
    | error e => rw [hsv] at hset3; exact absurd hset3 (by simp)
    | ok j =>
      obtain ⟨e1, rfl⟩ := jSetVal_obj_result (.prim w) _ data j hsv
      rw [hsv] at hset3
      have hd1 : d1 = e1 := (Except.ok.inj hset3).symm
      rw [hd1]
      have hg : JSONConfig_get_value opts e1 name =
          (match jWalk (JVal.obj e1) (splitSlash o.key) o.default with
           | Except.error e => (Except.error e : Except PyErr JVal)
           | Except.ok j => convert_to_system_J j o.valType) := by
        rw [JSONConfig_get_value, hopt]
      rw [hg, jWalk_after_jSetVal (.prim w) _ hparts _ _ o.default hsv]
      show convert_to_system_J (JVal.prim w) o.valType = Except.ok (JVal.prim w)
      rw [convert_to_system_J, convert_to_idem value w o.valType hnb hconv]
  · intro data0 dv hmiss hdc
    have hg : JSONConfig_get_value opts data0 name =
        (match jWalk (JVal.obj data0) (splitSlash o.key) o.default with
         | Except.error e => (Except.error e : Except PyErr JVal)
         | Except.ok j => convert_to_system_J j o.valType) := by
      rw [JSONConfig_get_value, hopt]
    rw [hg, jWalk_of_pathMisses o.default _ _ hmiss]
    show convert_to_system_J (JVal.prim (.str o.default)) o.valType = Except.ok (JVal.prim dv)
    rw [convert_to_system_J, hdc]

/-- C8 counterexample: for a `bool`-typed option, `set_value` stores the
converted Python bool, and the subsequent `get_value` applies
`.lower()` to that bool — an `AttributeError` instead of the stored
value. -/
theorem claim_C8_bool_counterexample :
    JSONConfig_set_value
        [("Flag", OptEntry.mk none (("a/b/c").data) (("False").data) "bool")]
        [] "Flag" (.str ("True").data) =
      .ok [(("a").data, .obj [(("b").data, .obj [(("c").data, .prim (.bool true))])])] ∧
    JSONConfig_get_value
        [("Flag", OptEntry.mk none (("a/b/c").data) (("False").data) "bool")]
        [(("a").data, .obj [(("b").data, .obj [(("c").data, .prim (.bool true))])])]
        "Flag" =
      .error .attributeError :=
  ⟨rfl, rfl⟩

/-- C8 witness: an `int` option at path `net/port` — set `'8080'` into an
empty document and read it back, and read the converted default
`25565` from a document missing the path. -/
theorem claim_C8_json_set_get_witness :
    JSONConfig_get_value
        [("Server Port", OptEntry.mk none (("net/port").data) (("25565").data) "int")]
        [(("net").data, .obj [(("port").data, .prim (.int 8080))])] "Server Port" =
      .ok (.prim (.int 8080)) ∧
    JSONConfig_get_value
        [("Server Port", OptEntry.mk none (("net/port").data) (("25565").data) "int")]
        [] "Server Port" = .ok (.prim (.int 25565)) := by
  have h := claim_C8_json_set_get
    [("Server Port", OptEntry.mk none (("net/port").data) (("25565").data) "int")]
    [] "Server Port"
    (OptEntry.mk none (("net/port").data) (("25565").data) "int")
    (.str ("8080").data) (.int 8080) rfl (by decide) rfl (by decide)
  exact ⟨h.1 _ rfl, h.2 [] (.int 25565) rfl rfl⟩

/-! ## Claim C5: backup retention -/

theorem insertByMtime_perm (x : BakFile) (l : List BakFile) :
    (insertByMtime x l).Perm (x :: l) := by
  induction l with
  | nil => exact List.Perm.refl _
  | cons y ys ih =>
    rw [insertByMtime]
    split
    · exact List.Perm.refl _
    · exact (ih.cons y).trans (List.Perm.swap x y ys)

theorem sortByMtime_perm (l : List BakFile) : (sortByMtime l).Perm l := by
  induction l with
  | nil => exact List.Perm.refl _
  | cons x xs ih => exact (insertByMtime_perm x (sortByMtime xs)).trans (ih.cons x)

theorem insertByMtime_pairwise (x : BakFile) (l : List BakFile)
    (h : l.Pairwise (fun a b => a.mtime ≤ b.mtime)) :
    (insertByMtime x l).Pairwise (fun a b => a.mtime ≤ b.mtime) := by
  induction l with
  | nil => simp [insertByMtime]
  | cons y ys ih =>
    obtain ⟨hy, hys⟩ := List.pairwise_cons.mp h
    rw [insertByMtime]
    split
    · next hxy =>
      refine List.pairwise_cons.mpr ⟨?_, h⟩
      intro z hz
      rcases List.mem_cons.mp hz with rfl | hz
      · exact hxy
      · exact le_trans hxy (hy z hz)
    · next hxy =>
      have hyx : y.mtime ≤ x.mtime := le_of_not_le hxy
      refine List.pairwise_cons.mpr ⟨?_, ih hys⟩
      intro z hz
      have hz' : z ∈ x :: ys := (insertByMtime_perm x ys).mem_iff.mp hz
      rcases List.mem_cons.mp hz' with rfl | hz'
      · exact hyx
      · exact hy z hz'

theorem sortByMtime_pairwise (l : List BakFile) :
    (sortByMtime l).Pairwise (fun a b => a.mtime ≤ b.mtime) := by
  induction l with
  | nil => exact List.Pairwise.nil
  | cons x xs ih => exact insertByMtime_pairwise x (sortByMtime xs) ih

/-- The retention step in isolation: with unique names and unique
modification times, deleting the oldest matching files down to `K`
leaves exactly `K` matching files, all strictly newer than every deleted
one, and leaves the non-matching files untouched. -/
theorem retention_spec (dir1 removed kept : List BakFile) (P : BakFile → Bool) (K : ℕ)
    (hK : 0 < K) (hKlen : K ≤ (dir1.filter P).length)
    (hnames : (dir1.map BakFile.name).Nodup)
    (hmt : (dir1.map BakFile.mtime).Nodup)
    (hrem : removed = (sortByMtime (dir1.filter P)).take ((dir1.filter P).length - K))
    (hkept : kept = dir1.filter (fun f => !((removed.map BakFile.name).contains f.name))) :
    (kept.filter P).length = K ∧
    (∀ f ∈ kept.filter P, ∀ g ∈ removed, g.mtime < f.mtime) ∧
    removed.length = (dir1.filter P).length - K ∧
    kept.filter (fun f => !(P f)) = dir1.filter (fun f => !(P f)) := by
  set M := dir1.filter P with hMdef
  set s := sortByMtime M with hsdef
  set d := M.length - K with hddef
  have hperm : s.Perm M := sortByMtime_perm M
  have hslen : s.length = M.length := hperm.length_eq
  have hsorted : s.Pairwise (fun a b => a.mtime ≤ b.mtime) := sortByMtime_pairwise M
  have hMsub : M.Sublist dir1 := List.filter_sublist dir1
  have hsnames : (s.map BakFile.name).Nodup :=
    ((hperm.map BakFile.name).nodup_iff).mpr (((hMsub.map BakFile.name)).nodup hnames)
  have hsmt : (s.map BakFile.mtime).Nodup :=
    ((hperm.map BakFile.mtime).nodup_iff).mpr (((hMsub.map BakFile.mtime)).nodup hmt)
  have hsplit : s.take d ++ s.drop d = s := List.take_append_drop d s
  have hcross_le : ∀ g ∈ s.take d, ∀ f ∈ s.drop d, g.mtime ≤ f.mtime := by
    have h1 : (s.take d ++ s.drop d).Pairwise (fun a b => a.mtime ≤ b.mtime) := by
      rw [hsplit]; exact hsorted
    exact (List.pairwise_append.mp h1).2.2
  have hcross_ne_mt : ∀ g ∈ s.take d, ∀ f ∈ s.drop d, g.mtime ≠ f.mtime := by
    have h1 : s.Pairwise (fun a b => a.mtime ≠ b.mtime) :=
      List.pairwise_map.mp hsmt
    have h2 : (s.take d ++ s.drop d).Pairwise (fun a b => a.mtime ≠ b.mtime) := by
      rw [hsplit]; exact h1
    exact (List.pairwise_append.mp h2).2.2
  have hcross_ne_nm : ∀ g ∈ s.take d, ∀ f ∈ s.drop d, g.name ≠ f.name := by
    have h1 : s.Pairwise (fun a b => a.name ≠ b.name) :=
      List.pairwise_map.mp hsnames
    have h2 : (s.take d ++ s.drop d).Pairwise (fun a b => a.name ≠ b.name) := by
      rw [hsplit]; exact h1
    exact (List.pairwise_append.mp h2).2.2
  subst hrem
  set q : BakFile → Bool :=
    fun f => !(((s.take d).map BakFile.name).contains f.name) with hqdef
  have hq_drop : ∀ f ∈ s.drop d, q f = true := by
    intro f hf
    rw [hqdef]
    simp only [Bool.not_eq_eq_eq_not, Bool.not_true, Bool.not_eq_true]
    cases hc : ((s.take d).map BakFile.name).contains f.name
    · rfl
    · exfalso
      have hmem : f.name ∈ (s.take d).map BakFile.name := by
        simpa using hc
      obtain ⟨g, hg, hgf⟩ := List.mem_map.mp hmem
      exact hcross_ne_nm g hg f hf hgf
  have hq_take : ∀ g ∈ s.take d, q g = false := by
    intro g hg
    rw [hqdef]
    simp only [Bool.not_eq_false]
    have hmem : g.name ∈ (s.take d).map BakFile.name := List.mem_map_of_mem _ hg
    simpa using hmem
  have hsfilter : s.filter q = s.drop d := by
    conv_lhs => rw [← hsplit]
    rw [List.filter_append, List.filter_eq_self.mpr hq_drop]
    have h0 : (s.take d).filter q = [] := by
      rw [List.filter_eq_nil_iff]
      intro g hg
      simp only [Bool.not_eq_true]
      exact hq_take g hg
    rw [h0, List.nil_append]
  have hdroplen : (s.drop d).length = K := by
    have := List.length_drop d s
    omega
  have hinj : ∀ x ∈ dir1, ∀ y ∈ dir1, x.name = y.name → x = y :=
    List.inj_on_of_nodup_map hnames
  have hkeptP : kept.filter P = M.filter q := by
    rw [hkept, List.filter_filter, hMdef, List.filter_filter]
    apply List.filter_congr
    intro f _
    rw [Bool.and_comm]
  have hMfilterPerm : (M.filter q).Perm (s.drop d) := by
    rw [← hsfilter]
    exact (hperm.filter _).symm
  refine ⟨?_, ?_, ?_, ?_⟩
  · rw [hkeptP, hMfilterPerm.length_eq, hdroplen]
  · intro f hf g hg
    have hf1 : f ∈ s.drop d := by
      rw [hkeptP] at hf
      exact hMfilterPerm.mem_iff.mp hf
    have hle := hcross_le g hg f hf1
    have hne := hcross_ne_mt g hg f hf1
    omega
  · have : (s.take d).length = d := by
      simp only [List.length_take]
      omega
    omega
  · rw [hkept, List.filter_filter]
    apply List.filter_congr
    intro f hf
    have hqf : P f = false → q f = true := by
      intro hPf
      rw [hqdef]
      simp only [Bool.not_eq_eq_eq_not, Bool.not_true, Bool.not_eq_true]
      cases hc : ((s.take d).map BakFile.name).contains f.name
      · rfl
      · exfalso
        have hmem : f.name ∈ (s.take d).map BakFile.name := by
          simpa using hc
        obtain ⟨g, hg, hgf⟩ := List.mem_map.mp hmem
        have hgs : g ∈ s := List.mem_of_mem_take hg
        have hgM : g ∈ M := hperm.mem_iff.mp hgs
        have hgdir : g ∈ dir1 := List.mem_of_mem_filter hgM
        have hgP : P g = true := List.of_mem_filter hgM
        have hge : g = f := hinj g hgdir f hf hgf
        rw [hge, hPf] at hgP
        exact Bool.noConfusion hgP
    by_cases hPf : P f = true
    · simp [hPf]
    · have hPf' : P f = false := by
        cases hv : P f
        · rfl
        · exact absurd hv hPf
      rw [hqf hPf', hPf']
      rfl

theorem isBackupName_backupName (base timestamp : PyStr) :
    isBackupName base (backupName base timestamp) = true := by
  have h1 : (backupPrefix base).isPrefixOf (backupName base timestamp) = true := by
    rw [List.isPrefixOf_iff_prefix, backupName]
    exact List.prefix_append _ _
  have h2 : ((".tar.gz").data).isSuffixOf (backupName base timestamp) = true := by
    rw [List.isSuffixOf_iff_suffix, backupName, ← List.append_assoc]
    exact List.suffix_append _ _
  rw [isBackupName, h1, h2]
  rfl

/-- C5: with `N` existing archives matching the game's backup pattern and
`0 < K ≤ N`, one more successful `complete_backup` (whose new archive is
the freshest file) leaves exactly `K` matching archives, each strictly
newer than every deleted archive, having deleted the `N + 1 - K` oldest;
files not matching the pattern are untouched; and with `max_backups = 0`
nothing is ever deleted. -/
theorem claim_C5_retention (existing : List BakFile) (rawName timestamp : PyStr)
    (newMtime : ℤ) (K : ℕ) (hK : 0 < K)
    (hKN : K ≤ (existing.filter
      (fun f => isBackupName (sanitizeName rawName) f.name)).length)
    (hnewm : ∀ f ∈ existing, f.mtime < newMtime)
    (hmt : (existing.map BakFile.mtime).Nodup)
    (hnames : (existing.map BakFile.name ++
      [backupName (sanitizeName rawName) timestamp]).Nodup) :
    ((complete_backup existing rawName timestamp newMtime K).1.filter
        (fun f => isBackupName (sanitizeName rawName) f.name)).length = K ∧
    (∀ f ∈ (complete_backup existing rawName timestamp newMtime K).1.filter
        (fun f => isBackupName (sanitizeName rawName) f.name),
      ∀ g ∈ (complete_backup existing rawName timestamp newMtime K).2,
        g.mtime < f.mtime) ∧
    (complete_backup existing rawName timestamp newMtime K).2.length =
      (existing.filter (fun f => isBackupName (sanitizeName rawName) f.name)).length
        + 1 - K ∧
    (complete_backup existing rawName timestamp newMtime K).1.filter
        (fun f => !(isBackupName (sanitizeName rawName) f.name)) =
      existing.filter (fun f => !(isBackupName (sanitizeName rawName) f.name)) ∧
    complete_backup existing rawName timestamp newMtime 0 =
      (existing ++ [BakFile.mk (backupName (sanitizeName rawName) timestamp) newMtime], []) := by
  have hPnew : isBackupName (sanitizeName rawName)
      (BakFile.mk (backupName (sanitizeName rawName) timestamp) newMtime).name = true :=
    isBackupName_backupName _ _
  have hfilterdir :
      (existing ++ [BakFile.mk (backupName (sanitizeName rawName) timestamp) newMtime]).filter
          (fun f => isBackupName (sanitizeName rawName) f.name) =
        existing.filter (fun f => isBackupName (sanitizeName rawName) f.name) ++
          [BakFile.mk (backupName (sanitizeName rawName) timestamp) newMtime] := by
    rw [List.filter_append]
    congr 1
    simp [hPnew]
  have hKlen : K ≤ ((existing ++ [BakFile.mk (backupName (sanitizeName rawName) timestamp) newMtime]).filter (fun f => isBackupName (sanitizeName rawName) f.name)).length := by
    rw [hfilterdir]
    simp only [List.length_append, List.length_cons, List.length_nil]
    omega
  have hnames1 : ((existing ++ [BakFile.mk (backupName (sanitizeName rawName) timestamp) newMtime]).map BakFile.name).Nodup := by
    rw [List.map_append]
    simpa using hnames
  have hmt1 : ((existing ++ [BakFile.mk (backupName (sanitizeName rawName) timestamp) newMtime]).map BakFile.mtime).Nodup := by
    rw [List.map_append]
    rw [List.nodup_append]
    refine ⟨hmt, List.nodup_singleton _, ?_⟩
    intro a ha hb
    obtain ⟨f, hf, hfa⟩ := List.mem_map.mp ha
    have hlt := hnewm f hf
    simp only [List.map_cons, List.map_nil, List.mem_singleton] at hb
    omega
  have hlen : (sortByMtime ((existing ++ [BakFile.mk (backupName (sanitizeName rawName) timestamp) newMtime]).filter (fun f => isBackupName (sanitizeName rawName) f.name))).length =
      ((existing ++ [BakFile.mk (backupName (sanitizeName rawName) timestamp) newMtime]).filter
        (fun f => isBackupName (sanitizeName rawName) f.name)).length :=
    (sortByMtime_perm _).length_eq
  have hcb : complete_backup existing rawName timestamp newMtime K =
      ((existing ++ [BakFile.mk (backupName (sanitizeName rawName) timestamp) newMtime]).filter
        (fun f => !((((sortByMtime ((existing ++ [BakFile.mk (backupName (sanitizeName rawName) timestamp) newMtime]).filter
            (fun f => isBackupName (sanitizeName rawName) f.name))).take
            (((existing ++ [BakFile.mk (backupName (sanitizeName rawName) timestamp) newMtime]).filter
              (fun f => isBackupName (sanitizeName rawName) f.name)).length - K)).map
            BakFile.name).contains f.name)),
       (sortByMtime ((existing ++ [BakFile.mk (backupName (sanitizeName rawName) timestamp) newMtime]).filter (fun f => isBackupName (sanitizeName rawName) f.name))).take
          (((existing ++ [BakFile.mk (backupName (sanitizeName rawName) timestamp) newMtime]).filter
            (fun f => isBackupName (sanitizeName rawName) f.name)).length - K)) := by
    simp only [complete_backup]
    rw [if_neg (by omega : ¬ K = 0), hlen]
  obtain ⟨c1, c2, c3, c4⟩ := retention_spec
    (existing ++ [BakFile.mk (backupName (sanitizeName rawName) timestamp) newMtime])
    ((sortByMtime ((existing ++ [BakFile.mk (backupName (sanitizeName rawName) timestamp) newMtime]).filter (fun f => isBackupName (sanitizeName rawName) f.name))).take
        (((existing ++ [BakFile.mk (backupName (sanitizeName rawName) timestamp) newMtime]).filter
          (fun f => isBackupName (sanitizeName rawName) f.name)).length - K))
    ((existing ++ [BakFile.mk (backupName (sanitizeName rawName) timestamp) newMtime]).filter
      (fun f => !((((sortByMtime ((existing ++ [BakFile.mk (backupName (sanitizeName rawName) timestamp) newMtime]).filter
          (fun f => isBackupName (sanitizeName rawName) f.name))).take
          (((existing ++ [BakFile.mk (backupName (sanitizeName rawName) timestamp) newMtime]).filter
            (fun f => isBackupName (sanitizeName rawName) f.name)).length - K)).map
          BakFile.name).contains f.name)))
    (fun f => isBackupName (sanitizeName rawName) f.name) K hK hKlen hnames1 hmt1
    rfl rfl
  rw [hcb]
  refine ⟨c1, c2, ?_, ?_, ?_⟩
  · rw [c3, hfilterdir]
    simp only [List.length_append, List.length_cons, List.length_nil]
  · rw [c4, List.filter_append]
    have : ([(BakFile.mk (backupName (sanitizeName rawName) timestamp) newMtime : BakFile)]).filter
        (fun f => !(isBackupName (sanitizeName rawName) f.name)) = [] := by
      simp [hPnew]
    rw [this, List.append_nil]
  · rw [complete_backup, if_pos rfl]

/-- C5 witness: two matching archives (mtimes 1 and 2) plus one
unrelated file, `max_backups = 2`, new archive at mtime 9 — exactly two
matching archives remain, and with `max_backups = 0` nothing is
deleted. -/
theorem claim_C5_retention_witness :
    ((complete_backup
        [BakFile.mk ("Hytale-backup-t1.tar.gz").data 1,
         BakFile.mk ("other.txt").data 5,
         BakFile.mk ("Hytale-backup-t2.tar.gz").data 2]
        ("Hytale").data ("t3").data 9 2).1.filter
      (fun f => isBackupName (sanitizeName ("Hytale").data) f.name)).length = 2 ∧
    complete_backup
        [BakFile.mk ("Hytale-backup-t1.tar.gz").data 1,
         BakFile.mk ("other.txt").data 5,
         BakFile.mk ("Hytale-backup-t2.tar.gz").data 2]
        ("Hytale").data ("t3").data 9 0 =
      ([BakFile.mk ("Hytale-backup-t1.tar.gz").data 1,
        BakFile.mk ("other.txt").data 5,
        BakFile.mk ("Hytale-backup-t2.tar.gz").data 2,
        BakFile.mk (backupName (sanitizeName ("Hytale").data) ("t3").data) 9], []) := by
  have h := claim_C5_retention
    [BakFile.mk ("Hytale-backup-t1.tar.gz").data 1,
     BakFile.mk ("other.txt").data 5,
     BakFile.mk ("Hytale-backup-t2.tar.gz").data 2]
    ("Hytale").data ("t3").data 9 2
    (by decide) (by decide) (by decide) (by decide) (by decide)
  exact ⟨h.1, h.2.2.2.2⟩

/-! ## Claim C9: delayed stop with no players -/

theorem fleetSvcStep_zero (tr : String → ℕ → DelayTick) :
    ∀ (svcs : List String) (seen : List String),
    (∀ s ∈ svcs, (tr s 0).running = true) →
    (∀ s ∈ svcs, (tr s 0).players = none ∨ (tr s 0).players = some 0) →
    (fleetSvcStep tr 0 55 svcs seen).1 = svcs.map (fun s => DelayEvent.stopSvc s 0) ∧
      (fleetSvcStep tr 0 55 svcs seen).2.1 = !svcs.isEmpty := by
  intro svcs
  induction svcs with
  | nil => intro seen _ _; exact ⟨rfl, rfl⟩
  | cons s rest ih =>
    intro seen hrun hz
    have hr := hrun s (List.mem_cons_self s rest)
    have ihr := ih (if s ∈ seen then seen else seen ++ [s])
      (fun x hx => hrun x (List.mem_cons_of_mem _ hx))
      (fun x hx => hz x (List.mem_cons_of_mem _ hx))
    rw [fleetSvcStep, if_pos hr]
    rcases hz s (List.mem_cons_self s rest) with hp | hp <;>
      · rw [hp]
        exact ⟨by simpa using ihr.1, rfl⟩

theorem fleetSvcStep_stopped (tr : String → ℕ → DelayTick) (t : ℕ) (ml : ℤ) :
    ∀ (svcs : List String) (seen : List String),
    (∀ s ∈ svcs, (tr s t).running = false) →
    fleetSvcStep tr t ml svcs seen = ([], false, seen) := by
  intro svcs
  induction svcs with
  | nil => intro seen _; rfl
  | cons s rest ih =>
    intro seen h
    rw [fleetSvcStep, if_neg (by simp [h s (List.mem_cons_self s rest)])]
    exact ih seen (fun x hx => h x (List.mem_cons_of_mem _ hx))

theorem fleetLoop_zero_players (tr : String → ℕ → DelayTick) (svcs : List String)
    (hrun : ∀ s ∈ svcs, (tr s 0).running = true)
    (hz : ∀ s ∈ svcs, (tr s 0).players = none ∨ (tr s 0).players = some 0)
    (hstop : ∀ s ∈ svcs, ∀ t, 1 ≤ t → (tr s t).running = false) :
    ∀ (f : ℕ) (seen : List String),
    (fleetLoop tr svcs 0 (f + 2) seen).1 =
      svcs.map (fun s => DelayEvent.stopSvc s 0) ++ [.consoleCountdown 0] := by
  intro f seen
  obtain ⟨h1, h2⟩ := fleetSvcStep_zero tr svcs seen hrun hz
  rw [fleetLoop]
  by_cases hsv : svcs = []
  · subst hsv
    rw [fleetSvcStep_stopped tr 0 _ [] seen (by simp)]
    norm_num
  · have hempty : svcs.isEmpty = false := by
      cases svcs with
      | nil => exact absurd rfl hsv
      | cons a b => rfl
    norm_num
    rw [h1, h2, hempty]
    norm_num
    rw [fleetLoop,
      fleetSvcStep_stopped tr 1 _ svcs _ (fun x hx => hstop x hx 1 (le_refl 1))]
    norm_num

theorem singleLoop_zero (tr : ℕ → Option ℤ) (hz : tr 0 = none ∨ tr 0 = some 0) :
    ∀ (f : ℕ) (msg : PyStr), singleLoop tr 0 (f + 1) msg = [] := by
  intro f msg
  rw [singleLoop]
  rcases hz with hp | hp <;> rw [hp]
  rfl

/-- C9: with zero or unknown connected players at the first tick, the
fleet-wide delayed loop stops every targeted (running) instance on tick
0 and sends no player warning over the whole run, and the
single-instance delayed loop exits at tick 0 and issues the plain stop
at once, also with zero warnings. -/
theorem claim_C9_delayed_stop_zero_players (tr : String → ℕ → DelayTick)
    (svcs : List String) (trS : ℕ → Option ℤ) (msg : PyStr)
    (hrun : ∀ s ∈ svcs, (tr s 0).running = true)
    (hz : ∀ s ∈ svcs, (tr s 0).players = none ∨ (tr s 0).players = some 0)
    (hstop : ∀ s ∈ svcs, ∀ t, 1 ≤ t → (tr s t).running = false)
    (hz1 : trS 0 = none ∨ trS 0 = some 0) :
    menu_delayed_action_game "stop" true tr svcs =
      svcs.map (fun s => DelayEvent.stopSvc s 0) ++ [.consoleCountdown 0] ∧
    (∀ s t, DelayEvent.msgSvc s t ∉ menu_delayed_action_game "stop" true tr svcs) ∧
    menu_delayed_action "stop" true trS msg = [.stopSingle] ∧
    (∀ t, DelayEvent.msgSingle t ∉ menu_delayed_action "stop" true trS msg) := by
  have hgame : menu_delayed_action_game "stop" true tr svcs =
      svcs.map (fun s => DelayEvent.stopSvc s 0) ++ [.consoleCountdown 0] := by
    rw [menu_delayed_action_game]
    norm_num
    rw [show (56 : ℕ) = 54 + 2 from rfl,
      fleetLoop_zero_players tr svcs hrun hz hstop 54 []]
    simp
  have hsingle : menu_delayed_action "stop" true trS msg = [.stopSingle] := by
    rw [menu_delayed_action]
    norm_num
    rw [show (56 : ℕ) = 55 + 1 from rfl, singleLoop_zero trS hz1 55 msg]
  refine ⟨hgame, ?_, hsingle, ?_⟩
  · intro s t hmem
    rw [hgame] at hmem
    rcases List.mem_append.mp hmem with hmem | hmem
    · obtain ⟨x, _, hx⟩ := List.mem_map.mp hmem
      exact DelayEvent.noConfusion hx
    · simp at hmem
  · intro t hmem
    rw [hsingle] at hmem
    simp at hmem

/-- C9 witness: one service, running with zero players at tick 0 and
stopped afterwards — the fleet loop emits exactly its stop at tick 0 plus
the console countdown, and the single-instance loop stops at once. -/
theorem claim_C9_delayed_stop_zero_players_witness :
    menu_delayed_action_game "stop" true
        (fun _ t => if t = 0 then ⟨true, some 0⟩ else ⟨false, none⟩)
        ["hytale-server"] =
      [.stopSvc "hytale-server" 0, .consoleCountdown 0] ∧
    menu_delayed_action "stop" true (fun _ => some 0) [] = [.stopSingle] := by
  have h := claim_C9_delayed_stop_zero_players
    (fun _ t => if t = 0 then ⟨true, some 0⟩ else ⟨false, none⟩) ["hytale-server"]
    (fun _ => some 0) []
    (fun s _ => rfl)
    (fun s _ => Or.inr rfl)
    (fun s _ t ht => by
      have hne : t ≠ 0 := by omega
      simp [hne])
    (Or.inr rfl)
  exact ⟨by simpa using h.1, h.2.2.1⟩

/-! ## Claim C6: no-op set -/

/-- C6: for a registered option, `set_option` with a value Python-equal
to the current one changes nothing (no set, no save, no hook, states
untouched); with a different value it sets, saves and fires the update
hook exactly once, with the previous and new values. -/
theorem claim_C6_noop_set {σ : Type} (cfgs : List (Backend σ × σ)) (opt : String)
    (v : PyVal) (hreg : ∃ c ∈ cfgs, c.1.hasOpt opt = true) :
    (pyEq (get_option_value cfgs opt) v = true →
      setOption cfgs opt v = (cfgs, [])) ∧
    (pyEq (get_option_value cfgs opt) v = false →
      (setOption cfgs opt v).2 =
        [.setValue opt v, .save, .hook opt (get_option_value cfgs opt) v]) := by
  induction cfgs with
  | nil => simp at hreg
  | cons c rest ih =>
    obtain ⟨b, s⟩ := c
    by_cases hb : b.hasOpt opt = true
    · constructor
      · intro heq
        rw [setOption, if_pos hb]
        rw [get_option_value, if_pos hb] at heq
        rw [if_pos heq]
      · intro hne
        rw [setOption, if_pos hb]
        rw [get_option_value, if_pos hb] at hne ⊢
        rw [if_neg (by rw [hne]; exact Bool.false_ne_true)]
    · have hreg1 : ∃ c ∈ rest, c.1.hasOpt opt = true := by
        rcases hreg with ⟨c, hc, hco⟩
        rcases List.mem_cons.mp hc with rfl | hc
        · exact absurd hco hb
        · exact ⟨c, hc, hco⟩
      have hb0 : b.hasOpt opt = false := by
        cases hq : b.hasOpt opt
        · rfl
        · exact absurd hq hb
      obtain ⟨ih1, ih2⟩ := ih hreg1
      constructor
      · intro heq
        rw [get_option_value, if_neg (by rw [hb0]; exact Bool.false_ne_true)] at heq
        rw [setOption, if_neg (by rw [hb0]; exact Bool.false_ne_true), ih1 heq]
      · intro hne
        rw [get_option_value, if_neg (by rw [hb0]; exact Bool.false_ne_true)] at hne ⊢
        rw [setOption, if_neg (by rw [hb0]; exact Bool.false_ne_true)]
        exact ih2 hne

/-- C6 witness: on a concrete config holding port 80, re-setting 80 is a
silent no-op and setting 443 saves and fires the hook once. -/
theorem claim_C6_noop_set_witness :
    setOption [(demoBackend, PyVal.int 80)] "Server Port" (.int 80) =
      ([(demoBackend, PyVal.int 80)], []) ∧
    (setOption [(demoBackend, PyVal.int 80)] "Server Port" (.int 443)).2 =
      [.setValue "Server Port" (.int 443), .save,
       .hook "Server Port" (.int 80) (.int 443)] := by
  have hreg : ∃ c ∈ [(demoBackend, PyVal.int 80)], c.1.hasOpt "Server Port" = true :=
    ⟨(demoBackend, PyVal.int 80), List.mem_singleton.mpr rfl, rfl⟩
  refine ⟨(claim_C6_noop_set _ _ _ hreg).1 (by decide), ?_⟩
  have h2 := (claim_C6_noop_set [(demoBackend, PyVal.int 80)] "Server Port"
    (.int 443) hreg).2 (by decide)
  simpa using h2

/-! ## Claim C4: restore refuses missing archives and live instances -/

/-- C4: when the archive path does not exist, or any service instance
reports running/starting/stopping, `restore` returns `False` and
performs no filesystem action at all: nothing is unpacked, no config or
save file is copied or overwritten. -/
theorem claim_C4_restore_refusal (env : RestoreEnv)
    (h : env.archiveExists = false ∨ is_active env.services = true) :
    restore env = (false, []) := by
  rcases h with h | h
  · rw [restore, prepare_restore, h]
    rfl
  · rw [restore, prepare_restore, h]
    cases henv : env.archiveExists <;> rfl

/-- C4 witness: concrete refusals — a missing archive, and a live
(stopping) instance. -/
theorem claim_C4_restore_refusal_witness :
    restore ⟨false, [], [("cfg", true)], [], none, false, [], true⟩ = (false, []) ∧
    restore ⟨true, [⟨false, false, true⟩], [("cfg", true)], [], none, false, [], true⟩ =
      (false, []) :=
  ⟨claim_C4_restore_refusal _ (Or.inl rfl),
   claim_C4_restore_refusal _ (Or.inr (by decide))⟩

/-! ## Claim C10: pre_stop always reports success -/

/-- C10: every normally-terminating run of `pre_stop` returns `True`,
whatever the configured messages, API availability or player counts; the
hook's boolean (and hence its exit status as a systemd pre-stop hook)
never signals failure. -/
theorem claim_C10_pre_stop_true (stopMsg instName : PyStr) (api : Bool)
    (w5 w4 w3 w2 w1 w30 wNow : PyStr) (playersAt : ℕ → Option ℤ) :
    (pre_stop stopMsg instName api w5 w4 w3 w2 w1 w30 wNow playersAt).2 = true := rfl

/-- C1 counterexample: for the float type the round trip fails in both
directions.  `convert_from_system_type(0.5, 'float')` yields the string
`'0.500000'`, which `convert_to_system_type` passes through unchanged, so
the system-side composition returns a string that is not Python-equal to
the original float `0.5`; and the storage string `'0.5'` comes back as
`'0.500000'`, not itself. -/
theorem claim_C1_float_counterexample :
    roundTripFrom (.float ⟨5, 10⟩) "float" = .ok (.str ("0.500000").data) ∧
    pyEq (.str ("0.500000").data) (.float ⟨5, 10⟩) = false ∧
    roundTripTo (.str ("0.5").data) "float" = .ok (.str ("0.500000").data) ∧
    PyVal.str ("0.500000").data ≠ PyVal.str ("0.5").data := by
  decide

/-! ## Claim C2: spoofed-section load/save round trip -/

/-- C2 (amended): loading a header-less INI file in spoofed-section mode
and then saving without any intervening set strips the injected section
header: no header-shaped line (stripped text bracketed by `[`…`]`)
appears anywhere in the written file, and reloading the written file
yields exactly the same parsed entries, so the injected header never
leaks and the file's semantics are preserved.  (Byte identity, as
literally claimed, fails: the parser re-renders `key = value` lines in
normalized form — see the counterexample.) -/
theorem claim_C2_spoofed_round_trip (content : List PyStr) (group : PyStr)
    (es : List (PyStr × PyStr)) (h : iniLoadSpoofed content = .ok es) :
    (∀ l ∈ iniSaveSpoofed group es, isHeaderish l = false) ∧
    iniLoadSpoofed (iniSaveSpoofed group es) = .ok es := by
  obtain ⟨hge, hnd⟩ := iniParseLines_good content [] es h (by simp) (by simp)
  cases es with
  | nil =>
    rw [iniSaveSpoofed_nil]
    exact ⟨by simp, rfl⟩
  | cons e es2 =>
    have hsave := iniSaveSpoofed_cons group e es2
      (pyStrip_renderEntry_ne_nil (hge e (by simp)))
    rw [hsave]
    constructor
    · intro l hl
      rcases List.mem_append.mp hl with h1 | h1
      · obtain ⟨e0, he0, hmap⟩ := List.mem_map.mp h1
        rw [← hmap]
        exact isHeaderish_of_entry_false (classifyIniLine_renderEntry (hge e0 he0))
      · have hl2 : l = [] := by simpa using h1
        rw [hl2]; rfl
    · exact iniParseLines_render (e :: es2) [] hge hnd

/-- C2 counterexample: the round trip is not byte-identical.  The
single-line file `key = 1` loads (spoofed) to the entry `key ↦ 1`, but
saving writes `key = 1` *plus a trailing blank line*; and the file
`Key: 1` loads to the same entry yet is written back as the normalized
`key = 1` line (key lower-cased, delimiter rewritten), so the original
bytes are not reproduced. -/
theorem claim_C2_not_byte_identical :
    iniLoadSpoofed [("key = 1").data] = .ok [(("key").data, ("1").data)] ∧
    iniSaveSpoofed (("manager").data) [(("key").data, ("1").data)] =
      [("key = 1").data, []] ∧
    iniSaveSpoofed (("manager").data) [(("key").data, ("1").data)] ≠
      [("key = 1").data] ∧
    iniLoadSpoofed [("Key: 1").data] = .ok [(("key").data, ("1").data)] ∧
    iniSaveSpoofed (("manager").data) [(("key").data, ("1").data)] ≠
      [("Key: 1").data] := by
  decide

theorem claim_C2_spoofed_round_trip_witness :
    iniLoadSpoofed [("# c").data, ("Key: 2").data, ("key2 = x").data] =
      .ok [(("key").data, ("2").data), (("key2").data, ("x").data)] ∧
    iniLoadSpoofed (iniSaveSpoofed (("manager").data)
        [(("key").data, ("2").data), (("key2").data, ("x").data)]) =
      .ok [(("key").data, ("2").data), (("key2").data, ("x").data)] ∧
    isHeaderish (("key = 2").data) = false :=
  ⟨by decide,
   (claim_C2_spoofed_round_trip [("# c").data, ("Key: 2").data, ("key2 = x").data]
      (("manager").data) [(("key").data, ("2").data), (("key2").data, ("x").data)]
      (by decide)).2,
   (claim_C2_spoofed_round_trip [("# c").data, ("Key: 2").data, ("key2 = x").data]
      (("manager").data) [(("key").data, ("2").data), (("key2").data, ("x").data)]
      (by decide)).1 (("key = 2").data) (by decide)⟩

end Manage

